import Mathlib

/-!
Verification of the k-space trajectory reconstruction engine
(`src/KSpaceTrajectory.cpp`, namespace `KSpaceTrajectory`).

The C++ code works on IEEE doubles; the shallow embedding models every
double by an exact rational number, every C++ `QVector`/`std::vector` by a
`List`, and the `NaN` plot-break marker by `Option.none`.  The RF complex
envelope (stored in the source as parallel magnitude/phase arrays and
recombined as `mag * exp(i*phase)`) is modelled by the Cartesian
real/imaginary parts of each complex sample, so that the single use the
engine makes of the envelope's transcendental functions — comparing the
flip-angle magnitude `|accum| * 360` against `90.01` — becomes the exact
equivalent squared comparison.

`SeriesBuilder::buildGradientSeries` and the `SeqBlock` accessors live in
files that are not part of the verified sources; the per-axis gradient
plot series (used by `compute` only as time-grid candidates, after
`sanitizeGradientSeries`) therefore enter the embedding as caller-supplied
fields of `Input`, and `SeqBlock` is modelled as a record holding exactly
the data the engine reads through the accessors.

The guessed-use B0 warning flag is a function-local `static` in the
source (process-wide mutable state); the embedding threads it explicitly:
`compute` takes the flag's value at entry and returns its value at exit
together with the number of warnings emitted during the invocation.
Likewise the gyromagnetic ratio, which the source reads from the
`Settings` singleton (shared mutable state), is an explicit argument.
-/

namespace KSpaceTraj

/-- Absolute value of a rational, mirroring `std::abs` on doubles. -/
def qAbs (q : ℚ) : ℚ := if q < 0 then -q else q

/-- Rounding of `std::llround`: round to nearest, halves away from zero. -/
def llroundQ (q : ℚ) : ℤ := if 0 ≤ q then ⌊q + 1/2⌋ else -⌊-q + 1/2⌋

/-- Grid accuracy constant `tacc = 1e-10` seconds (`compute`, line 357). -/
def tacc : ℚ := 1/10000000000

/-- Microseconds-to-seconds factor `1e-6`. -/
def usToS : ℚ := 1/1000000

/-- The lambda `roundAcc` of `compute`: `tacc * llround(sec / tacc)`.
The `isfinite` guard of the source never fires on rationals. -/
def roundAcc (sec : ℚ) : ℚ := tacc * (llroundQ (sec / tacc) : ℚ)

/-- The lambda `clampNonNegative` of `compute`. -/
def clampNonNegative (sec : ℚ) : ℚ := if sec < 0 then 0 else sec

/-- `internalToSeconds`: internal time units to seconds via `tFactor`. -/
def internalToSeconds (value tFactor : ℚ) : ℚ :=
  if tFactor = 0 then value else value / tFactor * usToS

/-- The lambda `internalToSecRounded` of `compute`. -/
def internalToSecRounded (tFactor internal : ℚ) : ℚ :=
  clampNonNegative (roundAcc (internalToSeconds internal tFactor))

/-- A 3-axis value (one component per gradient channel). -/
structure Vec3 where
  x : ℚ
  y : ℚ
  z : ℚ

def Vec3.zero : Vec3 := ⟨0, 0, 0⟩

def Vec3.add (a b : Vec3) : Vec3 := ⟨a.x + b.x, a.y + b.y, a.z + b.z⟩

def Vec3.neg (a : Vec3) : Vec3 := ⟨-a.x, -a.y, -a.z⟩

def Vec3.sub (a b : Vec3) : Vec3 := ⟨a.x - b.x, a.y - b.y, a.z - b.z⟩

def Vec3.smul (c : ℚ) (a : Vec3) : Vec3 := ⟨c * a.x, c * a.y, c * a.z⟩

/-- Shape kind of a gradient event (`isTrapGradient` / `isArbitraryGradient`
/ `isExtTrapGradient` in the source). -/
inductive GradKind where
  | trap
  | arb
  | extTrap

/-- One gradient event, with the per-shape data the engine reads through
the `SeqBlock` accessors (`GetGradEvent`, `GetArbGradShapePtr`,
`GetExtTrapGradTimes`, `GetExtTrapGradShape`).  Durations and the delay
are in microseconds, as in the source. -/
structure GradEvent where
  kind : GradKind
  amplitude : ℚ
  delay : ℚ
  rampUpTime : ℚ
  flatTime : ℚ
  rampDownTime : ℚ
  arbShape : List ℚ
  extTimes : List ℚ
  extShape : List ℚ

/-- RF event fields read by the engine.  `center < 0` is the sentinel
"compute the center from the samples". -/
structure RFEvent where
  amplitude : ℚ
  delay : ℚ
  center : ℚ
  freqOffset : ℚ
  freqPPM : ℚ
  use : Char

/-- Rotation event: quaternion (w, x, y, z). -/
structure RotationEvent where
  qw : ℚ
  qx : ℚ
  qy : ℚ
  qz : ℚ

/-- One decoded sequence block, holding exactly what the engine reads.
`rfSamples` are the complex RF envelope samples in Cartesian form (the
source stores magnitude/phase arrays; `GetRFLength` is the sample count,
`GetRFDwellTime` the uniform dwell in microseconds). -/
structure SeqBlock where
  rf : Option RFEvent
  rfSamples : List (ℚ × ℚ)
  rfDwellUs : ℚ
  gradX : Option GradEvent
  gradY : Option GradEvent
  gradZ : Option GradEvent
  rot : Option RotationEvent

/-- Channel dispatch of the per-axis accessors (0 = X, 1 = Y, 2 = Z). -/
def SeqBlock.gradOf (b : SeqBlock) (channel : ℕ) : Option GradEvent :=
  match channel with
  | 0 => b.gradX
  | 1 => b.gradY
  | 2 => b.gradZ
  | _ => none

/-- The `KSpaceTrajectory::Input` structure.  A `none` block models a null
`SeqBlock*`.  The three `Series` field pairs are the output of the external
`SeriesBuilder::buildGradientSeries` for channels X/Y/Z (times in internal
units; a `none` value is a NaN break marker), which `compute` consumes
only through `sanitizeGradientSeries` as time-grid candidates. -/
structure Input where
  blocks : List (Option SeqBlock)
  blockEdges : List ℚ
  tFactor : ℚ
  gradientRasterUs : ℚ
  rfRasterUs : ℚ
  b0Tesla : ℚ
  supportsRfUseMetadata : Bool
  adcEventTimesInternal : List ℚ
  gxSeriesTimes : List ℚ
  gxSeriesValues : List (Option ℚ)
  gySeriesTimes : List ℚ
  gySeriesValues : List (Option ℚ)
  gzSeriesTimes : List ℚ
  gzSeriesValues : List (Option ℚ)

/-- The `KSpaceTrajectory::Result` structure.  Plot channels are
`Option ℚ` (`none` = the NaN break written before an excitation index);
`warning` is true when the non-empty guessed-use warning string is set. -/
structure Result where
  t : List ℚ
  kx : List (Option ℚ)
  ky : List (Option ℚ)
  kz : List (Option ℚ)
  t_adc : List ℚ
  kx_adc : List ℚ
  ky_adc : List ℚ
  kz_adc : List ℚ
  excitationTimesInternal : List ℚ
  refocusingTimesInternal : List ℚ
  rfUseGuessed : Bool
  warning : Bool
  rfUsePerBlock : List Char

/-- The default-constructed `Result` returned on degenerate input. -/
def Result.empty : Result :=
  ⟨[], [], [], [], [], [], [], [], [], [], false, false, []⟩

/-- `trapezoidGradientValue` (lines 231-253): trapezoid lobe evaluation at
local time `localSec` (seconds past `blockStart + delay`). -/
def trapezoidGradientValue (grad : GradEvent) (localSec : ℚ) : ℚ :=
  if localSec < 0 then 0 else
  let rampUpSec := grad.rampUpTime * usToS
  let flatSec := grad.flatTime * usToS
  let rampDownSec := grad.rampDownTime * usToS
  let totalSec := rampUpSec + flatSec + rampDownSec
  if localSec > totalSec ∨ totalSec ≤ 0 then 0 else
  let amp := grad.amplitude
  if localSec ≤ rampUpSec ∧ rampUpSec > 0 then amp * (localSec / rampUpSec) else
  if localSec ≤ rampUpSec + flatSec then amp else
  if rampDownSec > 0 ∧ localSec - rampUpSec - flatSec ≤ rampDownSec then
    amp * (1 - (localSec - rampUpSec - flatSec) / rampDownSec)
  else 0

/-- `arbitraryGradientValue` (lines 255-284): arbitrary-waveform gradient
evaluation; samples are read from the event's shape array (the source
reads them through the owning block's accessors).  The `!shapePtr` null
check is subsumed by the empty-list case. -/
def arbitraryGradientValue (grad : GradEvent) (localSec gradientRasterUs : ℚ) : ℚ :=
  if localSec < 0 then 0 else
  let numSamples := grad.arbShape.length
  if numSamples = 0 then 0 else
  let rasterUs := if gradientRasterUs > 0 then gradientRasterUs else 10
  let rasterSec := rasterUs * usToS
  if numSamples = 1 then
    (if localSec ≤ rasterSec then grad.arbShape.getD 0 0 * grad.amplitude else 0)
  else
  let totalSec := rasterSec * ((numSamples : ℚ) - 1)
  if localSec > totalSec then 0 else
  let pos := localSec / rasterSec
  let idx0 : ℤ := ⌊pos⌋
  if idx0 ≥ (numSamples : ℤ) - 1 then grad.arbShape.getD (numSamples - 1) 0 * grad.amplitude else
  let frac := pos - (idx0 : ℚ)
  let i0 := idx0.toNat
  (grad.arbShape.getD i0 0 + (grad.arbShape.getD (i0 + 1) 0 - grad.arbShape.getD i0 0) * frac)
    * grad.amplitude

/-- `extTrapGradientValue` (lines 286-321): extended-trapezoid gradient
evaluation against explicit (time-in-microseconds, normalized-value)
breakpoints; outside the breakpoint span the value clamps to the
first/last breakpoint value. -/
def extTrapGradientValue (grad : GradEvent) (localSec : ℚ) : ℚ :=
  if localSec < 0 then 0 else
  let ts := grad.extTimes
  let sh := grad.extShape
  if ts.isEmpty ∨ sh.isEmpty ∨ ts.length ≠ sh.length then 0 else
  let localUs := localSec * 1000000
  if localUs ≤ ts.headD 0 then sh.headD 0 * grad.amplitude else
  if localUs ≥ ts.getLastD 0 then sh.getLastD 0 * grad.amplitude else
  let idx1 := (((List.range ts.length).find?
    (fun j => decide (1 ≤ j) && decide (localUs ≤ ts.getD j 0))).getD 0)
  if idx1 = 0 then sh.headD 0 * grad.amplitude else
  let idx0 := idx1 - 1
  let t0 := ts.getD idx0 0 * usToS
  let t1 := ts.getD idx1 0 * usToS
  let span := t1 - t0
  if span ≤ 0 then sh.getD idx1 0 * grad.amplitude else
  let alpha := (localSec - t0) / span
  let alphaClamped := max 0 (min alpha 1)
  (sh.getD idx0 0 + (sh.getD idx1 0 - sh.getD idx0 0) * alphaClamped) * grad.amplitude

/-- `gradientValueFromBlock` (lines 323-339): dispatch on the channel's
gradient shape kind; local time is measured from `blockStart + delay`. -/
def gradientValueFromBlock (blk : Option SeqBlock) (channel : ℕ)
    (timeSec blockStartSec gradientRasterUs : ℚ) : ℚ :=
  match blk with
  | none => 0
  | some b =>
    match b.gradOf channel with
    | none => 0
    | some grad =>
      let eventStartSec := blockStartSec + grad.delay * usToS
      let localSec := timeSec - eventStartSec
      match grad.kind with
      | GradKind.trap => trapezoidGradientValue grad localSec
      | GradKind.arb => arbitraryGradientValue grad localSec gradientRasterUs
      | GradKind.extTrap => extTrapGradientValue grad localSec

/-- Squared magnitude of a Cartesian complex sample. -/
def normSq (c : ℚ × ℚ) : ℚ := c.1 * c.1 + c.2 * c.2

/-- `rfCenterUs` (lines 27-67): explicit non-negative center is returned
unchanged; otherwise the midpoint of the first and last sample whose
magnitude is within a 1e-5 relative band of the peak magnitude.  The
source compares magnitudes (`|signal[i]| >= |maxVal| * 0.99999`); the
embedding compares the equivalent squares of the Cartesian samples. -/
def rfCenterUs (blk : SeqBlock) (rf : RFEvent) : ℚ :=
  if 0 ≤ rf.center then rf.center else
  let length := blk.rfSamples.length
  if length = 0 then 0 else
  let dwell := if blk.rfDwellUs ≤ 0 then 1 else blk.rfDwellUs
  let signalSq := blk.rfSamples.map normSq
  let maxSq := signalSq.foldl max 0
  let peakIdx := (List.range length).filter
    (fun i => decide (maxSq * (99999/100000)^2 ≤ signalSq.getD i 0))
  if peakIdx.isEmpty then 0 else
  ((peakIdx.headD 0 : ℚ) * dwell + (peakIdx.getLastD 0 : ℚ) * dwell) / 2

/-- The comparison `estimateFlipAngleDeg(blk) < 90.01` of `classifyRfUse`
(lines 69-104, 112).  `estimateFlipAngleDeg` left-Riemann-sums the complex
envelope `amplitude * mag[i] * exp(i*phase[i])` over samples `0..len-2`
with uniform `dt = dwell * 1e-6` and takes `|sum| * 360`; with Cartesian
samples the sum is `dt * amplitude * (sum of samples)` and the comparison
of the non-negative magnitude against `90.01` is the exact comparison of
squares.  The `isfinite` sample skip of the source never fires on
rationals.  A missing RF event or `len <= 1` gives estimate 0, hence
`true` here. -/
def flipAngleLtThreshold (blk : SeqBlock) : Bool :=
  match blk.rf with
  | none => true
  | some rf =>
    let len := blk.rfSamples.length
    if len ≤ 1 then true else
    let dwellUs := if blk.rfDwellUs ≤ 0 then 1 else blk.rfDwellUs
    let dt := dwellUs * usToS
    let s : ℚ × ℚ := (blk.rfSamples.take (len - 1)).foldl
      (fun acc c => (acc.1 + c.1, acc.2 + c.2)) ((0 : ℚ), (0 : ℚ))
    let flipSq : ℚ := (dt * rf.amplitude * 360)^2 * normSq s
    decide (flipSq < ((9001 : ℚ)/100)^2)

/-- The RF pulse duration derived inside `classifyRfUse` (lines 116-123):
`(len - 1) * dwell * 1e-6` when `len > 1` and the dwell is positive, else
0. -/
def rfDurationS (blk : SeqBlock) : ℚ :=
  if 1 < blk.rfSamples.length ∧ 0 < blk.rfDwellUs then
    ((blk.rfSamples.length : ℚ) - 1) * blk.rfDwellUs * usToS
  else 0

/-- The off-resonance ppm value used by `classifyRfUse` (lines 124-142):
`rf.freqPPM` when populated (v1.5.x), else derived as
`1e6 * freqOffset / (gamma * B0)` with B0 replaced by the assumed 3.0 T
when undefined. -/
def offResonancePPM (rf : RFEvent) (b0Tesla gammaHzPerT : ℚ) : ℚ :=
  let b0 := if b0Tesla ≤ 0 then 3 else b0Tesla
  if qAbs rf.freqPPM < 1/1000000000000 ∧ 0 < b0 ∧ 0 < qAbs gammaHzPerT then
    1000000 * rf.freqOffset / (gammaHzPerT * b0)
  else rf.freqPPM

/-- `classifyRfUse` (lines 106-147).  Returns the use character together
with the `guessedUse` flag, the new value of the process-wide
`s_warnedDefaultB0` static, and whether this call emitted the default-B0
warning. -/
def classifyRfUse (blk : SeqBlock) (rf : RFEvent) (supportsMetadata : Bool)
    (b0Tesla gammaHzPerT : ℚ) (warned : Bool) : Char × Bool × Bool × Bool :=
  if supportsMetadata ∧ rf.use ≠ Char.ofNat 0 ∧ rf.use ≠ 'u' ∧ rf.use ≠ 'U' then
    (rf.use, false, warned, false)
  else
  if flipAngleLtThreshold blk then ('e', true, warned, false) else
  let emitted := b0Tesla ≤ 0 ∧ warned = false
  let warned2 := warned ∨ b0Tesla ≤ 0
  let freqPPM := offResonancePPM rf b0Tesla gammaHzPerT
  if 6/1000 < rfDurationS blk ∧ -(9/2) ≤ freqPPM ∧ freqPPM ≤ -3 then
    ('s', true, warned2, emitted)
  else
    ('r', true, warned2, emitted)

/-- Quaternion-to-rotation-matrix application (lines 528-549). -/
def rotateVec (rot : RotationEvent) (v : Vec3) : Vec3 :=
  let w := rot.qw
  let x := rot.qx
  let y := rot.qy
  let z := rot.qz
  ⟨(1 - 2*y*y - 2*z*z) * v.x + (2*x*y - 2*w*z) * v.y + (2*x*z + 2*w*y) * v.z,
   (2*x*y + 2*w*z) * v.x + (1 - 2*x*x - 2*z*z) * v.y + (2*y*z - 2*w*x) * v.z,
   (2*x*z - 2*w*y) * v.x + (2*y*z + 2*w*x) * v.y + (1 - 2*x*x - 2*y*y) * v.z⟩

/-- Index of the first element strictly greater than `x`
(`std::upper_bound` on the sorted lists the engine searches);
`l.length` when there is none. -/
def upperBoundIdx (l : List ℚ) (x : ℚ) : ℕ := l.findIdx (fun v => decide (x < v))

/-- Index of the first element at least `x` (`std::lower_bound`);
`l.length` when there is none. -/
def lowerBoundIdx (l : List ℚ) (x : ℚ) : ℕ := l.findIdx (fun v => decide (x ≤ v))

/-- The lambda `gradientAtSec` of `compute` (lines 506-557): locate the
block containing `sec` among the rounded block edges, evaluate the three
channels there, and apply the block's rotation quaternion if present. -/
def gradientAtSec (blocks : List (Option SeqBlock)) (blockEdgesSec : List ℚ)
    (gradientRasterUs sec : ℚ) : Vec3 :=
  if blockEdgesSec.length < 2 then Vec3.zero else
  if sec < blockEdgesSec.headD 0 ∨ blockEdgesSec.getLastD 0 ≤ sec then Vec3.zero else
  let it := upperBoundIdx blockEdgesSec sec
  if it = 0 then Vec3.zero else
  let blockIdx := it - 1
  if blocks.length ≤ blockIdx then Vec3.zero else
  let blk := blocks.getD blockIdx none
  let blockStartSec := blockEdgesSec.getD blockIdx 0
  let lg : Vec3 :=
    ⟨gradientValueFromBlock blk 0 sec blockStartSec gradientRasterUs,
     gradientValueFromBlock blk 1 sec blockStartSec gradientRasterUs,
     gradientValueFromBlock blk 2 sec blockStartSec gradientRasterUs⟩
  match blk with
  | some b =>
    match b.rot with
    | some r => rotateVec r lg
    | none => lg
  | none => lg

/-- One step of `sanitizeGradientSeries` (lines 180-229); `out` is the
compacted prefix written so far (its last element's time is the loop's
`prevTime`), `tv` the incoming (time, value) pair, a `none` value being a
NaN break marker.  Non-finite times never arise on rationals. -/
def sanitizeStep (out : List (ℚ × Option ℚ)) (tv : ℚ × Option ℚ) : List (ℚ × Option ℚ) :=
  match out.getLast? with
  | none => [tv]
  | some prev =>
    if tv.1 < prev.1 - 1/1000000000000000 then out else
    if qAbs (tv.1 - prev.1) ≤ 1/1000000000000000 then
      if tv.2.isNone ∧ prev.2.isNone then out else
      if tv.2.isNone ∨ prev.2.isNone then out ++ [tv] else
      out.dropLast ++ [tv]
    else out ++ [tv]

/-- `sanitizeGradientSeries`: truncate to the common length, then compact
with `sanitizeStep`. -/
def sanitizeGradientSeries (times : List ℚ) (values : List (Option ℚ)) :
    List (ℚ × Option ℚ) :=
  let n := min times.length values.length
  ((times.take n).zip (values.take n)).foldl sanitizeStep []

/-- The k-space accumulation loop of `compute` (lines 559-579), producing
the trajectory values at grid points after the first: midpoint-rule
integration with the duplicate-point guard `dt <= 0`. -/
def integrateAux (g : ℚ → Vec3) : List ℚ → ℚ → Vec3 → List Vec3
  | [], _, _ => []
  | t :: rest, tPrev, kPrev =>
    let dt := t - tPrev
    let k := if dt ≤ 0 then kPrev else Vec3.add kPrev (Vec3.smul dt (g (tPrev + dt / 2)))
    k :: integrateAux g rest t k

/-- Midpoint-rule integration over the whole time grid; `k[0] = (0,0,0)`. -/
def integrateK (g : ℚ → Vec3) (grid : List ℚ) : List Vec3 :=
  match grid with
  | [] => []
  | t0 :: rest => Vec3.zero :: integrateAux g rest t0 Vec3.zero

/-- State of the RF classification loop of `compute` (lines 388-427),
together with the warn-once static and the number of warnings emitted. -/
structure RfScanState where
  excitationTimesInternal : List ℚ
  refocusingTimesInternal : List ℚ
  excSec : List ℚ
  refSec : List ℚ
  guessedAny : Bool
  rfUsePerBlock : List Char
  warned : Bool
  warnCount : ℕ

def RfScanState.init (warned : Bool) : RfScanState :=
  ⟨[], [], [], [], false, [], warned, 0⟩

/-- One iteration of the RF classification loop: a null block or a block
without RF records use character 0; otherwise classify, record the
resolved use, and collect excitation/refocusing center times (internal
units and rounded seconds). -/
def rfScanStep (input : Input) (gammaHzPerT : ℚ) (s : RfScanState)
    (ib : ℕ × Option SeqBlock) : RfScanState :=
  match ib.2 with
  | none => { s with rfUsePerBlock := s.rfUsePerBlock ++ [Char.ofNat 0] }
  | some blk =>
    match blk.rf with
    | none => { s with rfUsePerBlock := s.rfUsePerBlock ++ [Char.ofNat 0] }
    | some rf =>
      let c := classifyRfUse blk rf input.supportsRfUseMetadata input.b0Tesla
        gammaHzPerT s.warned
      let useChar := c.1
      let guessed := c.2.1
      let warned2 := c.2.2.1
      let emitted := c.2.2.2
      let centerUs := rfCenterUs blk rf
      let internalTime := input.blockEdges.getD ib.1 0 + (rf.delay + centerUs) * input.tFactor
      let base : RfScanState :=
        { s with
          guessedAny := s.guessedAny || guessed
          rfUsePerBlock := s.rfUsePerBlock ++
            [if useChar = Char.ofNat 0 then 'u' else useChar]
          warned := warned2
          warnCount := s.warnCount + (if emitted then 1 else 0) }
      if useChar = 'e' ∨ useChar = 'E' then
        { base with
          excitationTimesInternal := base.excitationTimesInternal ++ [internalTime]
          excSec := base.excSec ++ [internalToSecRounded input.tFactor internalTime] }
      else if useChar = 'r' ∨ useChar = 'R' then
        { base with
          refocusingTimesInternal := base.refocusingTimesInternal ++ [internalTime]
          refSec := base.refSec ++ [internalToSecRounded input.tFactor internalTime] }
      else base

/-- The whole RF classification loop over the enumerated block list. -/
def rfScanOf (input : Input) (gammaHzPerT : ℚ) (warned : Bool) : RfScanState :=
  input.blocks.enum.foldl (rfScanStep input gammaHzPerT) (RfScanState.init warned)

/-- RF raster period in seconds (line 436). -/
def rfRasterSecOf (input : Input) : ℚ :=
  if input.rfRasterUs > 0 then input.rfRasterUs * usToS else 0

/-- Total sequence duration in rounded seconds (line 438). -/
def totalDurationSecOf (input : Input) : ℚ :=
  internalToSecRounded input.tFactor (input.blockEdges.getLastD 0)

/-- ADC sample times in rounded seconds (lines 440-445). -/
def adcSecondsRoundedOf (input : Input) : List ℚ :=
  input.adcEventTimesInternal.map (internalToSecRounded input.tFactor)

/-- Sanitized per-axis gradient series times, converted to seconds
(lines 371-386). -/
def seriesTimesSec (input : Input) (times : List ℚ) (values : List (Option ℚ)) : List ℚ :=
  (sanitizeGradientSeries times values).map (fun p => internalToSeconds p.1 input.tFactor)

/-- The raw time-grid candidates of `compute`, in append order (lines
448-485): gradient series breakpoints of the three axes, 0 and the total
duration, each excitation center with its one- and two-raster lookbacks,
each refocusing center with its one-raster lookback, and the ADC times.
Every entry subsequently passes through `addCandidate`. -/
def rawCandidatesOf (input : Input) (gammaHzPerT : ℚ) (warned : Bool) : List ℚ :=
  let scan := rfScanOf input gammaHzPerT warned
  let r := rfRasterSecOf input
  seriesTimesSec input input.gxSeriesTimes input.gxSeriesValues ++
  seriesTimesSec input input.gySeriesTimes input.gySeriesValues ++
  seriesTimesSec input input.gzSeriesTimes input.gzSeriesValues ++
  [0, totalDurationSecOf input] ++
  scan.excSec.flatMap (fun sec =>
    sec :: (if r > 0 then
      [clampNonNegative (sec - r), clampNonNegative (sec - 2 * r)] else [])) ++
  scan.refSec.flatMap (fun sec =>
    sec :: (if r > 0 then [clampNonNegative (sec - r)] else [])) ++
  adcSecondsRoundedOf input

/-- The lambda `addCandidate` (lines 454-460): round to the accuracy grid
and clamp non-negative (the `isfinite` guard never fires on rationals). -/
def addCandidate (sec : ℚ) : ℚ := clampNonNegative (roundAcc sec)

def candidatesOf (input : Input) (gammaHzPerT : ℚ) (warned : Bool) : List ℚ :=
  (rawCandidatesOf input gammaHzPerT warned).map addCandidate

/-- The de-duplication loop of `compute` (lines 488-494), carrying the
last kept candidate (`timeGrid.back()`): a candidate within `tacc/2` of it
is dropped, any other is appended.  `std::sort` is modelled by insertion
sort — the sorted list of exact rationals is unique, so any comparison
sort yields the same list. -/
def dedupAux : Option ℚ → List ℚ → List ℚ
  | _, [] => []
  | none, v :: vs => v :: dedupAux (some v) vs
  | some b, v :: vs =>
    if qAbs (v - b) > tacc / 2 then v :: dedupAux (some v) vs
    else dedupAux (some b) vs

/-- The under-two-points fix-up (lines 495-499): append one synthetic
point `tacc` past the last grid point (or `tacc` itself on an empty
grid). -/
def gridFixup (grid : List ℚ) : List ℚ :=
  if grid.length < 2 then
    grid ++ [if grid.isEmpty then tacc else grid.getLastD 0 + tacc]
  else grid

/-- The final time grid (lines 487-499): sort, de-duplicate, and append a
synthetic second point when fewer than two points survive. -/
def gridOf (input : Input) (gammaHzPerT : ℚ) (warned : Bool) : List ℚ :=
  gridFixup (dedupAux none
    ((candidatesOf input gammaHzPerT warned).insertionSort (fun a b => a ≤ b)))

/-- Block edges in rounded seconds (lines 502-504). -/
def blockEdgesSecOf (input : Input) : List ℚ :=
  input.blockEdges.map (internalToSecRounded input.tFactor)

/-- The pre-offset dense trajectory (lines 559-579). -/
def integrateOf (input : Input) (gammaHzPerT : ℚ) (warned : Bool) : List Vec3 :=
  integrateK
    (gradientAtSec input.blocks (blockEdgesSecOf input) input.gradientRasterUs)
    (gridOf input gammaHzPerT warned)

/-- The scanning while-loop of `indexForSeconds` (lines 581-593), started
at the lower bound for `target - tacc/2`: return the first index whose
grid value is within `tacc/2` of the target, give up past
`target + tacc/2`. -/
def idxScanAux (target : ℚ) : List ℚ → ℕ → Option ℕ
  | [], _ => none
  | v :: vs, base =>
    if qAbs (v - target) ≤ tacc / 2 then some base else
    if v > target + tacc / 2 then none else
    idxScanAux target vs (base + 1)

/-- The lambda `indexForSeconds` of `compute`: exact-match lookup of a
rounded time against the grid (`none` models the C++ return value -1). -/
def indexForSeconds (grid : List ℚ) (sec : ℚ) : Option ℕ :=
  let target := roundAcc sec
  let p0 := lowerBoundIdx grid (target - tacc / 2)
  idxScanAux target (grid.drop p0) p0

/-- `std::unique`: drop adjacent duplicates, keeping the first of each
run. -/
def dedupAdjNat : List ℕ → List ℕ
  | [] => []
  | [a] => [a]
  | a :: b :: rest =>
    if a = b then dedupAdjNat (b :: rest) else a :: dedupAdjNat (b :: rest)

/-- Sorted de-duplicated index list (`std::sort` + `std::unique`,
lines 602-603 and 612-613). -/
def sortedUniqueNat (l : List ℕ) : List ℕ :=
  dedupAdjNat (l.insertionSort (fun a b => a ≤ b))

/-- Excitation grid indices (lines 595-603): exact-match lookups of the
rounded excitation seconds, sorted and de-duplicated. -/
def excIdxOf (input : Input) (gammaHzPerT : ℚ) (warned : Bool) : List ℕ :=
  sortedUniqueNat ((rfScanOf input gammaHzPerT warned).excSec.filterMap
    (indexForSeconds (gridOf input gammaHzPerT warned)))

/-- Refocusing grid indices (lines 605-613). -/
def refIdxOf (input : Input) (gammaHzPerT : ℚ) (warned : Bool) : List ℕ :=
  sortedUniqueNat ((rfScanOf input gammaHzPerT warned).refSec.filterMap
    (indexForSeconds (gridOf input gammaHzPerT warned)))

/-- Reset boundaries (lines 615-621): grid index 0, all excitation and
refocusing indices, and the last grid index, sorted and de-duplicated. -/
def boundariesOf (input : Input) (gammaHzPerT : ℚ) (warned : Bool) : List ℕ :=
  sortedUniqueNat ((0 :: excIdxOf input gammaHzPerT warned ++
    refIdxOf input gammaHzPerT warned) ++
    [(gridOf input gammaHzPerT warned).length - 1])

/-- The inner loop of one segment (lines 650-655): add the current offset
to every sample with index in `[start, endIdx)`. -/
def applySeg (k : List Vec3) (dk : Vec3) (start endIdx : ℕ) : List Vec3 :=
  k.mapIdx (fun i v => if start ≤ i ∧ i < endIdx then Vec3.add v dk else v)

/-- The segment loop of `compute` (lines 626-656).  The `ptrExc`/`ptrRef`
cursors of the source only ever advance, so they are modelled by the
not-yet-consumed suffixes of the excitation/refocusing index lists; a
cursor matches exactly when the suffix's head equals the segment start.
Returns the offset in force after the loop and the updated trajectory. -/
def segLoop : List ℕ → List ℕ → List ℕ → Vec3 → List Vec3 → Vec3 × List Vec3
  | exc, ref, start :: endIdx :: rest, dk, k =>
    if exc.head? = some start then
      let dk2 := Vec3.neg (k.getD start Vec3.zero)
      segLoop exc.tail ref (endIdx :: rest) dk2 (applySeg k dk2 start endIdx)
    else if ref.head? = some start then
      let dk2 := Vec3.sub (Vec3.smul (-2) (k.getD start Vec3.zero)) dk
      segLoop exc ref.tail (endIdx :: rest) dk2 (applySeg k dk2 start endIdx)
    else
      segLoop exc ref (endIdx :: rest) dk (applySeg k dk start endIdx)
  | _, _, _, dk, k => (dk, k)

/-- Offset application (lines 623-664): initial offset `-k[0]`, the
segment loop, then the final fix-up adding the offset in force to the
last boundary's sample. -/
def applyOffsets (exc ref bnd : List ℕ) (k : List Vec3) : List Vec3 :=
  let dk0 := Vec3.neg (k.getD 0 Vec3.zero)
  let r := segLoop exc ref bnd dk0 k
  match bnd.getLast? with
  | some last => r.2.set last (Vec3.add (r.2.getD last Vec3.zero) r.1)
  | none => r.2

/-- The post-offset dense trajectory of `compute` — the values on which
both the (NaN-marked) plot arrays and the ADC interpolation are based. -/
def kDenseOf (input : Input) (gammaHzPerT : ℚ) (warned : Bool) : List Vec3 :=
  applyOffsets (excIdxOf input gammaHzPerT warned) (refIdxOf input gammaHzPerT warned)
    (boundariesOf input gammaHzPerT warned) (integrateOf input gammaHzPerT warned)

/-- The NaN plotting breaks (lines 666-677): for every excitation index
`idx > 0`, overwrite the sample at `idx - 1` with the break marker. -/
def markBreaks (k : List (Option ℚ)) (exc : List ℕ) : List (Option ℚ) :=
  exc.foldl (fun p idx => if 0 < idx then p.set (idx - 1) none else p) k

/-- The lambda `interpolateK` of `compute` (lines 687-705): clamped linear
interpolation of one dense channel at query time `ta`, with exact-match
snap inside a `tacc/2` band. -/
def interpolateK (grid data : List ℚ) (ta : ℚ) : ℚ :=
  if grid.length = 1 then data.headD 0 else
  let i1 := lowerBoundIdx grid ta
  if i1 = 0 then data.headD 0 else
  if i1 = grid.length then data.getLastD 0 else
  if qAbs (grid.getD i1 0 - ta) ≤ tacc / 2 then data.getD i1 0 else
  let i0 := i1 - 1
  let t0 := grid.getD i0 0
  let t1 := grid.getD i1 0
  if t1 ≤ t0 then data.getD i1 0 else
  data.getD i0 0 + (data.getD i1 0 - data.getD i0 0) * ((ta - t0) / (t1 - t0))

/-- The `Result` assembled by the non-degenerate path of `compute`
(lines 357-715). -/
def computeResult (input : Input) (gammaHzPerT : ℚ) (warned : Bool) : Result :=
  ⟨gridOf input gammaHzPerT warned,
   markBreaks (((kDenseOf input gammaHzPerT warned).map Vec3.x).map some)
     (excIdxOf input gammaHzPerT warned),
   markBreaks (((kDenseOf input gammaHzPerT warned).map Vec3.y).map some)
     (excIdxOf input gammaHzPerT warned),
   markBreaks (((kDenseOf input gammaHzPerT warned).map Vec3.z).map some)
     (excIdxOf input gammaHzPerT warned),
   adcSecondsRoundedOf input,
   (adcSecondsRoundedOf input).map (interpolateK (gridOf input gammaHzPerT warned)
     ((kDenseOf input gammaHzPerT warned).map Vec3.x)),
   (adcSecondsRoundedOf input).map (interpolateK (gridOf input gammaHzPerT warned)
     ((kDenseOf input gammaHzPerT warned).map Vec3.y)),
   (adcSecondsRoundedOf input).map (interpolateK (gridOf input gammaHzPerT warned)
     ((kDenseOf input gammaHzPerT warned).map Vec3.z)),
   (rfScanOf input gammaHzPerT warned).excitationTimesInternal,
   (rfScanOf input gammaHzPerT warned).refocusingTimesInternal,
   (rfScanOf input gammaHzPerT warned).guessedAny,
   (rfScanOf input gammaHzPerT warned).guessedAny,
   (rfScanOf input gammaHzPerT warned).rfUsePerBlock⟩

/-- `KSpaceTrajectory::compute` (lines 351-716).  Besides the `Result`,
returns the exit value of the warn-once static and the number of
default-B0 warnings emitted during this invocation. -/
def compute (input : Input) (gammaHzPerT : ℚ) (warned : Bool) : Result × Bool × ℕ :=
  if input.blocks.isEmpty ∨ input.blockEdges.length < 2 then
    (Result.empty, warned, 0)
  else
    (computeResult input gammaHzPerT warned,
     (rfScanOf input gammaHzPerT warned).warned,
     (rfScanOf input gammaHzPerT warned).warnCount)

/-- Effective raster period (seconds) of an arbitrary gradient
(`rasterUs = gradientRasterUs > 0 ? gradientRasterUs : 10`). -/
def arbRasterSec (gradientRasterUs : ℚ) : ℚ :=
  (if gradientRasterUs > 0 then gradientRasterUs else 10) * usToS

/-- Duration of an arbitrary gradient event as the evaluator sees it: one
raster period for a single-sample waveform, `raster * (n-1)` otherwise. -/
def arbDurationSec (grad : GradEvent) (gradientRasterUs : ℚ) : ℚ :=
  if grad.arbShape.length ≤ 1 then arbRasterSec gradientRasterUs
  else arbRasterSec gradientRasterUs * ((grad.arbShape.length : ℚ) - 1)

/-- Concrete extended-trapezoid event whose last breakpoint value is
non-zero: breakpoints (0us, 0) and (10us, 1), amplitude 1. -/
def extTrapCE : GradEvent :=
  ⟨GradKind.extTrap, 1, 0, 0, 0, 0, [], [0, 10], [0, 1]⟩

/-- A block with no RF, no gradients and no rotation. -/
def blockTrivial : SeqBlock := ⟨none, [], 0, none, none, none, none⟩

/-- A minimal non-degenerate input: one trivial block spanning internal
times 0..1 with `tFactor = 0` (internal units are seconds), no events,
empty series. -/
def inputW : Input :=
  ⟨[some blockTrivial], [0, 1], 0, 0, 0, 0, true, [], [], [], [], [], [], []⟩

/-- Like `inputW` but with one ADC sample time at 0.5 s. -/
def inputW2 : Input :=
  ⟨[some blockTrivial], [0, 1], 0, 0, 0, 0, true, [1/2], [], [], [], [], [], []⟩

/-- An RF event with a `'u'` (unknown) use tag and no frequency offsets. -/
def rfEventE : RFEvent := ⟨1, 0, 0, 0, 0, 'u'⟩

/-- A block carrying `rfEventE` with two unit samples and a 1 us dwell:
its estimated flip angle (`360 * 1e-6` degrees) is far below 90.01. -/
def blockE : SeqBlock := ⟨some rfEventE, [(1, 0), (1, 0)], 1, none, none, none, none⟩

/-- An RF event with unknown use and `freqOffset = -10.35` Hz. -/
def rfEventR : RFEvent := ⟨1, 0, 0, -1035/100, 0, 'u'⟩

/-- A block carrying `rfEventR` with two unit samples and a 1e6 us dwell:
its estimated flip angle is 360 degrees (past the 90.01 threshold) and
its derived duration is 1 s; with gamma 1e6 Hz/T and the assumed 3 T the
off-resonance is -3.45 ppm, inside the saturation band. -/
def blockR : SeqBlock :=
  ⟨some rfEventR, [(1, 0), (1, 0)], 1000000, none, none, none, none⟩

/-- Whether classifying this block reaches the default-B0 fallback code
(lines 128-137): a non-null RF block without an explicit use tag whose
flip-angle estimate is at or above the threshold, while `b0Tesla <= 0`. -/
def blockNeedsFallback (supportsMetadata : Bool) (b0Tesla : ℚ)
    (ob : Option SeqBlock) : Bool :=
  match ob with
  | none => false
  | some blk =>
    match blk.rf with
    | none => false
    | some rf =>
      (!decide (supportsMetadata = true ∧ rf.use ≠ Char.ofNat 0 ∧
        rf.use ≠ 'u' ∧ rf.use ≠ 'U')) &&
      !flipAngleLtThreshold blk && decide (b0Tesla ≤ 0)

/-- Whether some block of the input reaches the default-B0 fallback. -/
def anyFallback (input : Input) : Bool :=
  input.blocks.any (blockNeedsFallback input.supportsRfUseMetadata input.b0Tesla)

/-- Input with one tagless high-flip RF block and `b0 = 0`: every
invocation reaches the default-B0 fallback. -/
def inputF : Input :=
  ⟨[some blockR], [0, 1], 0, 0, 0, 0, true, [], [], [], [], [], [], []⟩

/-- A fully degenerate input: no blocks, no edges, no events. -/
def inputD : Input := ⟨[], [], 0, 0, 0, 0, false, [], [], [], [], [], [], []⟩

/-- The first boundary strictly after index `e` (for a sorted boundary
list this is the segment end of the segment starting at `e`). -/
def nextBoundaryAfter (bnd : List ℕ) (e : ℕ) : ℕ :=
  (bnd.filter (fun b => decide (e < b))).headD 0

/-- A one-second flat unit-amplitude X gradient block (no RF). -/
def blockG : SeqBlock :=
  ⟨none, [], 0, some ⟨GradKind.trap, 1, 0, 0, 1000000, 0, [], [], []⟩,
   none, none, none⟩

/-- An explicitly tagged excitation RF block with explicit center 0. -/
def blockRFe : SeqBlock := ⟨some ⟨1, 0, 0, 0, 0, 'e'⟩, [], 0, none, none, none, none⟩

/-- An explicitly tagged refocusing RF block with explicit center 0. -/
def blockRFr : SeqBlock := ⟨some ⟨1, 0, 0, 0, 0, 'r'⟩, [], 0, none, none, none, none⟩

/-- Gradient block then excitation block, with the excitation center in
the middle of the grid: grid `[0, 1, 2]`, excitation index 1. -/
def inputE : Input :=
  ⟨[some blockG, some blockRFe], [0, 1, 2], 0, 0, 0, 0, true, [], [], [], [], [], [], []⟩

/-- Gradient block then refocusing block, with the refocusing center in
the middle of the grid: grid `[0, 1, 2]`, refocusing index 1. -/
def inputR2 : Input :=
  ⟨[some blockG, some blockRFr], [0, 1, 2], 0, 0, 0, 0, true, [], [], [], [], [], [], []⟩

/-- Gradient block then excitation block whose center falls on the LAST
grid point: grid `[0, 1]`, excitation index 1 = last. -/
def inputL : Input :=
  ⟨[some blockG, some blockRFe], [0, 1, 1], 0, 0, 0, 0, true, [], [], [], [], [], [], []⟩

/-- Gradient block then refocusing block whose center falls on the LAST
grid point: grid `[0, 1]`, refocusing index 1 = last. -/
def inputLR : Input :=
  ⟨[some blockG, some blockRFr], [0, 1, 1], 0, 0, 0, 0, true, [], [], [], [], [], [], []⟩

/-! ### Helper lemmas -/

theorem qAbs_eq_abs (q : ℚ) : qAbs q = |q| := by
  unfold qAbs
  split_ifs with h
  · exact (abs_of_neg h).symm
  · exact (abs_of_nonneg (not_lt.mp h)).symm

/-! ### C3: zero outside the event window, per shape kind -/

/-- The trapezoid evaluator vanishes outside `[0, total ramp duration]`. -/
theorem trapezoidGradientValue_zero_outside (grad : GradEvent) (localSec : ℚ)
    (h : localSec < 0 ∨
      (grad.rampUpTime + grad.flatTime + grad.rampDownTime) * usToS < localSec) :
    trapezoidGradientValue grad localSec = 0 := by
  simp only [trapezoidGradientValue]
  rcases h with h | h
  · rw [if_pos h]
  · by_cases h0 : localSec < 0
    · rw [if_pos h0]
    · rw [if_neg h0, if_pos (Or.inl (by linarith))]

/-- The arbitrary-waveform evaluator vanishes outside `[0, duration]`. -/
theorem arbitraryGradientValue_zero_outside (grad : GradEvent)
    (localSec gradientRasterUs : ℚ)
    (h : localSec < 0 ∨ arbDurationSec grad gradientRasterUs < localSec) :
    arbitraryGradientValue grad localSec gradientRasterUs = 0 := by
  simp only [arbitraryGradientValue]
  rcases h with h | h
  · rw [if_pos h]
  · by_cases h0 : localSec < 0
    · rw [if_pos h0]
    · rw [if_neg h0]
      by_cases hn0 : grad.arbShape.length = 0
      · rw [if_pos hn0]
      · rw [if_neg hn0]
        by_cases hn1 : grad.arbShape.length = 1
        · rw [if_pos hn1]
          rw [if_neg]
          have hd : arbDurationSec grad gradientRasterUs = arbRasterSec gradientRasterUs := by
            unfold arbDurationSec
            rw [if_pos (by omega)]
          rw [hd] at h
          unfold arbRasterSec at h
          push_neg
          exact h
        · rw [if_neg hn1]
          rw [if_pos]
          have hd : arbDurationSec grad gradientRasterUs =
              arbRasterSec gradientRasterUs * ((grad.arbShape.length : ℚ) - 1) := by
            unfold arbDurationSec
            rw [if_neg (by omega)]
          rw [hd] at h
          unfold arbRasterSec at h
          exact h

/-- The extended-trapezoid evaluator vanishes for negative local times. -/
theorem extTrapGradientValue_zero_neg (grad : GradEvent) (localSec : ℚ)
    (h : localSec < 0) : extTrapGradientValue grad localSec = 0 := by
  simp only [extTrapGradientValue]
  rw [if_pos h]

/-- The extended-trapezoid evaluator clamps: at or past the last
breakpoint (and strictly past the first), it returns the last breakpoint
value scaled by the amplitude — not 0. -/
theorem extTrapGradientValue_clamps_right (grad : GradEvent) (localSec : ℚ)
    (hts : ¬grad.extTimes.isEmpty) (hsh : ¬grad.extShape.isEmpty)
    (hlen : grad.extTimes.length = grad.extShape.length)
    (h0 : ¬localSec < 0)
    (hhead : grad.extTimes.headD 0 < localSec * 1000000)
    (hlast : grad.extTimes.getLastD 0 ≤ localSec * 1000000) :
    extTrapGradientValue grad localSec =
      grad.extShape.getLastD 0 * grad.amplitude := by
  simp only [extTrapGradientValue]
  rw [if_neg h0, if_neg (by simp [hts, hsh, hlen]), if_neg (not_le.mpr hhead),
    if_pos hlast]

/-- C3, counterexample: the claim "the gradient evaluator returns exactly
0 for any local time outside [delay, delay+duration], for all three shape
kinds" fails for the extended-trapezoid kind.  For the event with
breakpoints (0us, 0), (10us, 1) and amplitude 1, the local time 20us lies
strictly past the event's 10us span, yet the evaluator returns 1, the
amplitude-scaled last breakpoint value. -/
theorem C3_counterexample :
    extTrapCE.extTimes.getLastD 0 * usToS < 2/100000 ∧
    extTrapGradientValue extTrapCE (2/100000) ≠ 0 := by
  constructor
  · norm_num [extTrapCE, usToS]
  · rw [extTrapGradientValue_clamps_right extTrapCE (2/100000)
      (by norm_num [extTrapCE]) (by norm_num [extTrapCE]) (by norm_num [extTrapCE])
      (by norm_num) (by norm_num [extTrapCE]) (by norm_num [extTrapCE])]
    norm_num [extTrapCE]

/-- C3, amended: the trapezoid and arbitrary-waveform evaluators return
exactly 0 at any local time outside `[0, duration]`; the
extended-trapezoid evaluator returns 0 for negative local times but
clamps to the amplitude-scaled last breakpoint value at or past its last
breakpoint (so it is 0 there only when that boundary value is 0). -/
theorem C3_zero_window_amended :
    (∀ (grad : GradEvent) (localSec : ℚ),
      localSec < 0 ∨
        (grad.rampUpTime + grad.flatTime + grad.rampDownTime) * usToS < localSec →
      trapezoidGradientValue grad localSec = 0) ∧
    (∀ (grad : GradEvent) (localSec gradientRasterUs : ℚ),
      localSec < 0 ∨ arbDurationSec grad gradientRasterUs < localSec →
      arbitraryGradientValue grad localSec gradientRasterUs = 0) ∧
    (∀ (grad : GradEvent) (localSec : ℚ), localSec < 0 →
      extTrapGradientValue grad localSec = 0) ∧
    (∀ (grad : GradEvent) (localSec : ℚ),
      ¬grad.extTimes.isEmpty → ¬grad.extShape.isEmpty →
      grad.extTimes.length = grad.extShape.length → ¬localSec < 0 →
      grad.extTimes.headD 0 < localSec * 1000000 →
      grad.extTimes.getLastD 0 ≤ localSec * 1000000 →
      extTrapGradientValue grad localSec =
        grad.extShape.getLastD 0 * grad.amplitude) :=
  ⟨trapezoidGradientValue_zero_outside,
   arbitraryGradientValue_zero_outside,
   extTrapGradientValue_zero_neg,
   fun grad localSec hts hsh hlen h0 hh hl =>
     extTrapGradientValue_clamps_right grad localSec hts hsh hlen h0 hh hl⟩

/-- C3 witness: the amended theorem applied at concrete events — a
1ms/2ms/1ms trapezoid queried at 5ms, a two-sample arbitrary waveform
queried at 1ms past its 10us span, and the clamping extended trapezoid
queried at 20us. -/
theorem C3_zero_window_amended_witness :
    trapezoidGradientValue ⟨GradKind.trap, 1000, 0, 1000, 2000, 1000, [], [], []⟩
      (5/1000) = 0 ∧
    arbitraryGradientValue ⟨GradKind.arb, 7, 0, 0, 0, 0, [1, 1], [], []⟩
      (1/1000) 0 = 0 ∧
    extTrapGradientValue extTrapCE (-1) = 0 ∧
    extTrapGradientValue extTrapCE (2/100000) = 1 := by
  refine ⟨C3_zero_window_amended.1 _ _ (Or.inr (by norm_num [usToS])),
    C3_zero_window_amended.2.1 _ _ _ (Or.inr (by norm_num [arbDurationSec, arbRasterSec, usToS])),
    C3_zero_window_amended.2.2.1 _ _ (by norm_num), ?_⟩
  rw [C3_zero_window_amended.2.2.2 extTrapCE (2/100000)
    (by norm_num [extTrapCE]) (by norm_num [extTrapCE]) (by norm_num [extTrapCE])
    (by norm_num) (by norm_num [extTrapCE]) (by norm_num [extTrapCE])]
  norm_num [extTrapCE]

/-! ### C4: time-grid invariants -/

theorem tacc_pos : (0 : ℚ) < tacc := by norm_num [tacc]

/-- Multiplicity predicate: a non-negative multiple of the accuracy
grid. -/
def IsTaccMult (q : ℚ) : Prop := ∃ n : ℕ, q = (n : ℚ) * tacc

theorem addCandidate_isTaccMult (sec : ℚ) : IsTaccMult (addCandidate sec) := by
  unfold addCandidate clampNonNegative roundAcc
  split_ifs with h
  · exact ⟨0, by norm_num⟩
  · rcases le_or_lt 0 (llroundQ (sec / tacc)) with hm | hm
    · refine ⟨(llroundQ (sec / tacc)).toNat, ?_⟩
      have hc : (((llroundQ (sec / tacc)).toNat : ℕ) : ℚ) = (llroundQ (sec / tacc) : ℚ) := by
        exact_mod_cast Int.toNat_of_nonneg hm
      rw [hc]
      ring
    · exfalso
      apply h
      have h1 : (llroundQ (sec / tacc) : ℚ) ≤ -1 := by
        have h2 : llroundQ (sec / tacc) ≤ -1 := by omega
        exact_mod_cast h2
      nlinarith [tacc_pos]

theorem addCandidate_nonneg (sec : ℚ) : 0 ≤ addCandidate sec := by
  obtain ⟨n, hn⟩ := addCandidate_isTaccMult sec
  rw [hn]
  exact mul_nonneg (by positivity) (le_of_lt tacc_pos)

/-- Two accuracy-grid multiples within half a step of each other are
equal. -/
theorem isTaccMult_eq_of_close (a b : ℚ) (ha : IsTaccMult a) (hb : IsTaccMult b)
    (h : ¬qAbs (a - b) > tacc / 2) : a = b := by
  obtain ⟨n, hn⟩ := ha
  obtain ⟨m, hm⟩ := hb
  rw [qAbs_eq_abs] at h
  push_neg at h
  rw [hn, hm] at h ⊢
  have habs : |(n : ℚ) - m| * tacc ≤ tacc / 2 := by
    calc |(n : ℚ) - m| * tacc = |((n : ℚ) - m) * tacc| := by
          rw [abs_mul, abs_of_pos tacc_pos]
      _ = |(n : ℚ) * tacc - (m : ℚ) * tacc| := by ring_nf
      _ ≤ tacc / 2 := h
  have hnm : ((n : ℚ) - m) = 0 := by
    by_contra hne
    have h1 : (1 : ℚ) ≤ |(n : ℚ) - m| := by
      have : ((n : ℤ) : ℚ) - ((m : ℤ) : ℚ) = (((n : ℤ) - m : ℤ) : ℚ) := by push_cast; ring
      rw [show ((n : ℚ) - m) = (((n : ℤ) - m : ℤ) : ℚ) by push_cast; ring] at hne ⊢
      rw [← Int.cast_abs]
      have : (n : ℤ) - m ≠ 0 := by
        intro h0
        apply hne
        rw [h0]
        norm_num
      have : 1 ≤ |(n : ℤ) - m| := Int.one_le_abs this
      exact_mod_cast this
    nlinarith [tacc_pos]
  have : (n : ℚ) = m := by linarith
  rw [this]

/-- Two distinct accuracy-grid multiples separated by more than half a
step, the smaller first, are a full step apart. -/
theorem isTaccMult_lt_of_far (a b : ℚ) (ha : IsTaccMult a) (hb : IsTaccMult b)
    (hle : a ≤ b) (h : qAbs (b - a) > tacc / 2) : a < b := by
  rcases eq_or_lt_of_le hle with rfl | hlt
  · exfalso
    rw [qAbs_eq_abs] at h
    simp at h
    nlinarith [tacc_pos, h]
  · exact hlt

theorem dedupAux_subset (l : List ℚ) (o : Option ℚ) (x : ℚ)
    (hx : x ∈ dedupAux o l) : x ∈ l := by
  induction l generalizing o with
  | nil => simp [dedupAux] at hx
  | cons v vs ih =>
    match o with
    | none =>
      simp only [dedupAux, List.mem_cons] at hx
      rcases hx with rfl | hx
      · exact List.mem_cons_self _ _
      · exact List.mem_cons_of_mem _ (ih _ hx)
    | some b =>
      simp only [dedupAux] at hx
      split_ifs at hx with hc
      · simp only [List.mem_cons] at hx
        rcases hx with rfl | hx
        · exact List.mem_cons_self _ _
        · exact List.mem_cons_of_mem _ (ih _ hx)
      · exact List.mem_cons_of_mem _ (ih _ hx)

theorem dedupAux_chain (l : List ℚ) (b : ℚ)
    (hsort : List.Pairwise (· ≤ ·) l)
    (hmult : ∀ x ∈ l, IsTaccMult x) (hbm : IsTaccMult b)
    (hb : ∀ x ∈ l, b ≤ x) :
    List.Chain (· < ·) b (dedupAux (some b) l) := by
  induction l generalizing b with
  | nil => exact List.Chain.nil
  | cons v vs ih =>
    simp only [dedupAux]
    split_ifs with hc
    · refine List.Chain.cons ?_ ?_
      · exact isTaccMult_lt_of_far b v hbm (hmult v (by simp))
          (hb v (by simp)) hc
      · exact ih v (hsort.of_cons) (fun x hx => hmult x (by simp [hx]))
          (hmult v (by simp))
          (fun x hx => (List.pairwise_cons.mp hsort).1 x hx)
    · have hveq : v = b :=
        (isTaccMult_eq_of_close v b (hmult v (by simp)) hbm hc)
      exact ih b (hsort.of_cons) (fun x hx => hmult x (by simp [hx])) hbm
        (fun x hx => hveq ▸ (List.pairwise_cons.mp hsort).1 x hx)

theorem dedupAux_mem (l : List ℚ) (b : ℚ)
    (hmult : ∀ x ∈ l, IsTaccMult x) (hbm : IsTaccMult b) (x : ℚ) (hx : x ∈ l) :
    x = b ∨ x ∈ dedupAux (some b) l := by
  induction l generalizing b with
  | nil => simp at hx
  | cons v vs ih =>
    simp only [dedupAux]
    split_ifs with hc
    · rcases List.mem_cons.mp hx with rfl | hx2
      · right
        exact List.mem_cons_self _ _
      · rcases ih v (fun y hy => hmult y (by simp [hy])) (hmult v (by simp)) hx2 with
          rfl | h
        · right
          exact List.mem_cons_self _ _
        · right
          exact List.mem_cons_of_mem _ h
    · have hveq : v = b :=
        isTaccMult_eq_of_close v b (hmult v (by simp)) hbm hc
      rcases List.mem_cons.mp hx with rfl | hx2
      · left
        exact hveq
      · exact ih b (fun y hy => hmult y (by simp [hy])) hbm hx2

theorem candidatesOf_isTaccMult (input : Input) (gammaHzPerT : ℚ) (warned : Bool) :
    ∀ x ∈ candidatesOf input gammaHzPerT warned, IsTaccMult x := by
  intro x hx
  unfold candidatesOf at hx
  obtain ⟨s, _, rfl⟩ := List.mem_map.mp hx
  exact addCandidate_isTaccMult s

theorem candidatesOf_ne_nil (input : Input) (gammaHzPerT : ℚ) (warned : Bool) :
    candidatesOf input gammaHzPerT warned ≠ [] := by
  unfold candidatesOf rawCandidatesOf
  simp

/-- On a one-point grid the fix-up appends the point `tacc` later. -/
theorem gridFixup_singleton (a : ℚ) : gridFixup [a] = [a, a + tacc] := by
  unfold gridFixup
  rw [if_pos (by simp)]
  simp [List.getLastD]

/-- On a grid of at least two points the fix-up is the identity. -/
theorem gridFixup_of_two_le (g : List ℚ) (h : 2 ≤ g.length) : gridFixup g = g := by
  unfold gridFixup
  rw [if_neg (by omega)]

/-- The grid fix-up step (lines 495-499) preserves the invariants and
guarantees at least two points, given a non-empty strictly increasing
non-negative input. -/
theorem gridFixup_props (g : List ℚ) (hch : List.Chain' (· < ·) g)
    (hnn : ∀ x ∈ g, 0 ≤ x) (hne : g ≠ []) :
    List.Chain' (· < ·) (gridFixup g) ∧
    (∀ x ∈ gridFixup g, 0 ≤ x) ∧
    2 ≤ (gridFixup g).length ∧
    (∀ c ∈ g, c ∈ gridFixup g) := by
  match g, hne with
  | [a], _ =>
    rw [gridFixup_singleton]
    have ha0 : 0 ≤ a := hnn a (List.mem_cons_self _ _)
    refine ⟨?_, ?_, by simp, ?_⟩
    · exact List.Chain.cons (by nlinarith [tacc_pos]) List.Chain.nil
    · intro x hx
      rcases List.mem_cons.mp hx with rfl | hx2
      · exact ha0
      · rcases List.mem_singleton.mp hx2 with rfl
        nlinarith [tacc_pos]
    · intro c hc
      rcases List.mem_singleton.mp hc with rfl
      exact List.mem_cons_self _ _
  | a :: b :: rest, _ =>
    rw [gridFixup_of_two_le _ (by simp)]
    exact ⟨hch, hnn, by simp, fun c hc => hc⟩

set_option maxHeartbeats 1000000 in
/-- The invariants of the built time grid: strictly increasing,
non-negative, at least two points, and containing every (rounded,
clamped) candidate. -/
theorem gridOf_props (input : Input) (gammaHzPerT : ℚ) (warned : Bool) :
    List.Chain' (· < ·) (gridOf input gammaHzPerT warned) ∧
    (∀ x ∈ gridOf input gammaHzPerT warned, 0 ≤ x) ∧
    2 ≤ (gridOf input gammaHzPerT warned).length ∧
    (∀ c ∈ candidatesOf input gammaHzPerT warned,
      c ∈ gridOf input gammaHzPerT warned) := by
  have hmult := candidatesOf_isTaccMult input gammaHzPerT warned
  have hnonneg : ∀ x ∈ candidatesOf input gammaHzPerT warned, 0 ≤ x := by
    intro x hx
    unfold candidatesOf at hx
    obtain ⟨s, _, rfl⟩ := List.mem_map.mp hx
    exact addCandidate_nonneg s
  have hperm := List.perm_insertionSort (fun a b : ℚ => a ≤ b)
    (candidatesOf input gammaHzPerT warned)
  have hsorted : List.Pairwise (fun a b : ℚ => a ≤ b)
      ((candidatesOf input gammaHzPerT warned).insertionSort (fun a b => a ≤ b)) :=
    List.sorted_insertionSort (fun a b : ℚ => a ≤ b) _
  have hmultS : ∀ x ∈ (candidatesOf input gammaHzPerT warned).insertionSort
      (fun a b => a ≤ b), IsTaccMult x :=
    fun x hx => hmult x (hperm.mem_iff.mp hx)
  have hnonnegS : ∀ x ∈ (candidatesOf input gammaHzPerT warned).insertionSort
      (fun a b => a ≤ b), 0 ≤ x :=
    fun x hx => hnonneg x (hperm.mem_iff.mp hx)
  have hkey : List.Chain' (· < ·)
      (dedupAux none ((candidatesOf input gammaHzPerT warned).insertionSort
        (fun a b => a ≤ b))) ∧
      (∀ x ∈ dedupAux none ((candidatesOf input gammaHzPerT warned).insertionSort
        (fun a b => a ≤ b)), 0 ≤ x) ∧
      (dedupAux none ((candidatesOf input gammaHzPerT warned).insertionSort
        (fun a b => a ≤ b))) ≠ [] ∧
      (∀ c ∈ candidatesOf input gammaHzPerT warned,
        c ∈ dedupAux none ((candidatesOf input gammaHzPerT warned).insertionSort
          (fun a b => a ≤ b))) := by
    cases hs : (candidatesOf input gammaHzPerT warned).insertionSort
        (fun a b => a ≤ b) with
    | nil =>
      exfalso
      apply candidatesOf_ne_nil input gammaHzPerT warned
      rw [hs] at hperm
      exact (List.Perm.nil_eq hperm).symm
    | cons v vs =>
      rw [hs] at hsorted hmultS hnonnegS
      have hchain : List.Chain (· < ·) v (dedupAux (some v) vs) :=
        dedupAux_chain vs v hsorted.of_cons
          (fun x hx => hmultS x (List.mem_cons_of_mem _ hx))
          (hmultS v (List.mem_cons_self _ _))
          (fun x hx => (List.pairwise_cons.mp hsorted).1 x hx)
      refine ⟨hchain, ?_, by simp [dedupAux], ?_⟩
      · intro x hx
        exact hnonnegS x (dedupAux_subset _ _ _ hx)
      · intro c hc
        have hcs : c ∈ v :: vs := by
          rw [← hs]
          exact hperm.mem_iff.mpr hc
        simp only [dedupAux]
        rcases List.mem_cons.mp hcs with rfl | hc2
        · exact List.mem_cons_self _ _
        · rcases dedupAux_mem vs v
            (fun y hy => hmultS y (List.mem_cons_of_mem _ hy))
            (hmultS v (List.mem_cons_self _ _)) c hc2 with rfl | h
          · exact List.mem_cons_self _ _
          · exact List.mem_cons_of_mem _ h
  obtain ⟨hch0, hnn0, hne0, hmem0⟩ := hkey
  have hfix := gridFixup_props _ hch0 hnn0 hne0
  unfold gridOf
  exact ⟨hfix.1, hfix.2.1, hfix.2.2.1, fun c hc => hfix.2.2.2 c (hmem0 c hc)⟩

theorem chain'_lt_getD (l : List ℚ) (h : List.Chain' (· < ·) l) (i : ℕ)
    (hi : i + 1 < l.length) : l.getD i 0 < l.getD (i + 1) 0 := by
  have hg := List.chain'_iff_get.mp h i (by omega)
  rw [List.getD_eq_getElem l 0 (by omega), List.getD_eq_getElem l 0 hi]
  simpa [List.get_eq_getElem] using hg

theorem computeResult_t (input : Input) (gammaHzPerT : ℚ) (warned : Bool) :
    (computeResult input gammaHzPerT warned).t = gridOf input gammaHzPerT warned := by
  simp only [computeResult]

/-- On non-degenerate input, the produced `Result` is `computeResult`. -/
theorem compute_fst_eq (input : Input) (gammaHzPerT : ℚ) (warned : Bool)
    (hb : input.blocks.isEmpty = false) (he : 2 ≤ input.blockEdges.length) :
    (compute input gammaHzPerT warned).1 = computeResult input gammaHzPerT warned := by
  unfold compute
  rw [if_neg (by simp [hb]; omega)]

/-- On non-degenerate input, the produced `Result.t` is the built grid. -/
theorem compute_t_eq (input : Input) (gammaHzPerT : ℚ) (warned : Bool)
    (hb : input.blocks.isEmpty = false) (he : 2 ≤ input.blockEdges.length) :
    (compute input gammaHzPerT warned).1.t = gridOf input gammaHzPerT warned := by
  rw [compute_fst_eq input gammaHzPerT warned hb he, computeResult_t]

/-- C4: on every non-degenerate input the produced time grid is strictly
increasing, non-negative, holds at least two points, and every rounded,
clamped, de-duplicated candidate instant is one of its points. -/
theorem C4_time_grid (input : Input) (gammaHzPerT : ℚ) (warned : Bool)
    (hb : input.blocks.isEmpty = false) (he : 2 ≤ input.blockEdges.length) :
    (∀ i, i + 1 < (compute input gammaHzPerT warned).1.t.length →
      (compute input gammaHzPerT warned).1.t.getD i 0 <
        (compute input gammaHzPerT warned).1.t.getD (i + 1) 0) ∧
    (∀ x ∈ (compute input gammaHzPerT warned).1.t, 0 ≤ x) ∧
    2 ≤ (compute input gammaHzPerT warned).1.t.length ∧
    (∀ c ∈ candidatesOf input gammaHzPerT warned,
      c ∈ (compute input gammaHzPerT warned).1.t) := by
  rw [compute_t_eq input gammaHzPerT warned hb he]
  obtain ⟨h1, h2, h3, h4⟩ := gridOf_props input gammaHzPerT warned
  exact ⟨fun i hi => chain'_lt_getD _ h1 i hi, h2, h3, h4⟩

/-! ### C8: ADC interpolation -/

theorem headD_eq_getD (l : List ℚ) : l.headD 0 = l.getD 0 0 := by
  cases l <;> rfl

theorem getLastD_aux (l : List ℚ) (d : ℚ) (h : l ≠ []) :
    l.getLastD d = l.getD (l.length - 1) 0 := by
  induction l generalizing d with
  | nil => exact absurd rfl h
  | cons a rest ih =>
    cases rest with
    | nil => rfl
    | cons b rest2 =>
      rw [List.getLastD_cons, ih a (by simp)]
      simp

theorem getLastD_eq_getD (l : List ℚ) : l.getLastD 0 = l.getD (l.length - 1) 0 := by
  cases l with
  | nil => rfl
  | cons a rest => exact getLastD_aux (a :: rest) 0 (by simp)

theorem isTaccMult_sub_ge (a b : ℚ) (ha : IsTaccMult a) (hb : IsTaccMult b)
    (h : a < b) : tacc ≤ b - a := by
  obtain ⟨n, rfl⟩ := ha
  obtain ⟨m, rfl⟩ := hb
  have hnm : n < m := by
    by_contra hc
    push_neg at hc
    have : (m : ℚ) ≤ n := by exact_mod_cast hc
    nlinarith [tacc_pos]
  have h1 : (n : ℚ) + 1 ≤ m := by exact_mod_cast hnm
  nlinarith [tacc_pos]

theorem chain'_getD_le (l : List ℚ) (h : List.Chain' (· < ·) l) (i j : ℕ)
    (hij : i ≤ j) (hj : j < l.length) : l.getD i 0 ≤ l.getD j 0 := by
  rcases eq_or_lt_of_le hij with rfl | hlt
  · exact le_refl _
  · have hp := List.chain'_iff_pairwise.mp h
    have := List.pairwise_iff_getElem.mp hp i j (by omega) hj hlt
    rw [List.getD_eq_getElem l 0 (by omega), List.getD_eq_getElem l 0 hj]
    exact le_of_lt this

/-- Clamp below the first grid point. -/
theorem interpolateK_le_head (grid data : List ℚ) (ta : ℚ)
    (hlen2 : 2 ≤ grid.length) (hta : ta ≤ grid.getD 0 0) :
    interpolateK grid data ta = data.headD 0 := by
  unfold interpolateK
  rw [if_neg (by omega)]
  have hi1 : lowerBoundIdx grid ta = 0 := by
    unfold lowerBoundIdx
    rw [List.findIdx_eq (by omega)]
    refine ⟨?_, by omega⟩
    rw [← List.getD_eq_getElem grid 0 (by omega)]
    simpa using hta
  rw [hi1, if_pos rfl]

/-- Clamp above the last grid point. -/
theorem interpolateK_ge_last (grid data : List ℚ) (ta : ℚ)
    (hch : List.Chain' (· < ·) grid)
    (hmult : ∀ v ∈ grid, IsTaccMult v) (htam : IsTaccMult ta)
    (hlen2 : 2 ≤ grid.length) (hdlen : data.length = grid.length)
    (hta : grid.getD (grid.length - 1) 0 ≤ ta) :
    interpolateK grid data ta = data.getD (grid.length - 1) 0 := by
  unfold interpolateK
  rw [if_neg (by omega)]
  rcases eq_or_lt_of_le hta with heq | hlt
  · have hi1 : lowerBoundIdx grid ta = grid.length - 1 := by
      unfold lowerBoundIdx
      rw [List.findIdx_eq (by omega)]
      constructor
      · rw [← List.getD_eq_getElem grid 0 (by omega)]
        simp [← heq]
      · intro j hj
        have hjlt : grid.getD j 0 < grid.getD (grid.length - 1) 0 := by
          have hp := List.chain'_iff_pairwise.mp hch
          have := List.pairwise_iff_getElem.mp hp j (grid.length - 1)
            (by omega) (by omega) hj
          rw [List.getD_eq_getElem grid 0 (by omega),
            List.getD_eq_getElem grid 0 (by omega)]
          exact this
        rw [← List.getD_eq_getElem grid 0 (by omega)]
        simp only [decide_eq_false_iff_not, not_le]
        rw [← heq]
        exact hjlt
    have hcond : qAbs (grid.getD (grid.length - 1) 0 - ta) ≤ tacc / 2 := by
      rw [heq, sub_self]
      simp only [qAbs, lt_self_iff_false, if_false]
      nlinarith [tacc_pos]
    rw [hi1, if_neg (by omega), if_neg (by omega), if_pos hcond]
  · have hi1 : lowerBoundIdx grid ta = grid.length := by
      unfold lowerBoundIdx
      rw [List.findIdx_eq_length]
      intro v hv
      simp only [decide_eq_false_iff_not, not_le]
      obtain ⟨i, hi, rfl⟩ := List.mem_iff_getElem.mp hv
      calc grid[i] ≤ grid.getD (grid.length - 1) 0 := by
            rw [← List.getD_eq_getElem grid 0 hi]
            exact chain'_getD_le grid hch i (grid.length - 1) (by omega) (by omega)
        _ < ta := hlt
    rw [hi1, if_neg (by omega), if_pos rfl, getLastD_eq_getD, hdlen]

/-- Exact-match idempotence: a query equal to a grid point returns that
grid point's dense value unchanged. -/
theorem interpolateK_exact (grid data : List ℚ) (j : ℕ)
    (hch : List.Chain' (· < ·) grid)
    (hlen2 : 2 ≤ grid.length) (hdlen : data.length = grid.length)
    (hj : j < grid.length) :
    interpolateK grid data (grid.getD j 0) = data.getD j 0 := by
  rcases Nat.eq_zero_or_pos j with rfl | hjpos
  · rw [interpolateK_le_head grid data _ hlen2 (le_refl _), headD_eq_getD]
  · unfold interpolateK
    rw [if_neg (by omega)]
    have hi1 : lowerBoundIdx grid (grid.getD j 0) = j := by
      unfold lowerBoundIdx
      rw [List.findIdx_eq (by omega)]
      constructor
      · rw [← List.getD_eq_getElem grid 0 hj]
        simp
      · intro i hi
        have : grid.getD i 0 < grid.getD j 0 := by
          have hp := List.chain'_iff_pairwise.mp hch
          have := List.pairwise_iff_getElem.mp hp i j (by omega) hj hi
          rw [List.getD_eq_getElem grid 0 (by omega), List.getD_eq_getElem grid 0 hj]
          exact this
        rw [← List.getD_eq_getElem grid 0 (by omega)]
        simp only [decide_eq_false_iff_not, not_le]
        exact this
    rw [hi1, if_neg (by omega), if_neg (by omega), if_pos]
    simp [qAbs_eq_abs]
    nlinarith [tacc_pos]

/-- Strict-interior case: genuine linear interpolation between the two
bracketing grid points. -/
theorem interpolateK_interior (grid data : List ℚ) (ta : ℚ) (j : ℕ)
    (hch : List.Chain' (· < ·) grid)
    (hmult : ∀ v ∈ grid, IsTaccMult v) (htam : IsTaccMult ta)
    (hj1 : j + 1 < grid.length)
    (hlo : grid.getD j 0 < ta) (hhi : ta < grid.getD (j + 1) 0) :
    interpolateK grid data ta =
      data.getD j 0 + (data.getD (j + 1) 0 - data.getD j 0) *
        ((ta - grid.getD j 0) / (grid.getD (j + 1) 0 - grid.getD j 0)) := by
  unfold interpolateK
  rw [if_neg (by omega)]
  have hi1 : lowerBoundIdx grid ta = j + 1 := by
    unfold lowerBoundIdx
    rw [List.findIdx_eq (by omega)]
    constructor
    · rw [← List.getD_eq_getElem grid 0 hj1]
      simp only [decide_eq_true_eq]
      exact le_of_lt hhi
    · intro i hi
      have : grid.getD i 0 ≤ grid.getD j 0 :=
        chain'_getD_le grid hch i j (by omega) (by omega)
      rw [← List.getD_eq_getElem grid 0 (by omega)]
      simp only [decide_eq_false_iff_not, not_le]
      linarith
  have hsep : tacc ≤ grid.getD (j + 1) 0 - ta := by
    apply isTaccMult_sub_ge ta (grid.getD (j + 1) 0) htam
    · apply hmult
      rw [List.getD_eq_getElem grid 0 hj1]
      exact List.getElem_mem _
    · exact hhi
  have hexact : ¬qAbs (grid.getD (j + 1) 0 - ta) ≤ tacc / 2 := by
    rw [qAbs_eq_abs, abs_of_nonneg (by linarith)]
    push_neg
    nlinarith [tacc_pos]
  rw [hi1, if_neg (by omega), if_neg (by omega)]
  simp only [Nat.add_sub_cancel]
  rw [if_neg hexact, if_neg (by push_neg; linarith)]

theorem getLastD_mem (l : List ℚ) (h : l ≠ []) : l.getLastD 0 ∈ l := by
  rw [getLastD_eq_getD, List.getD_eq_getElem l 0 (by
    cases l with
    | nil => exact absurd rfl h
    | cons a rest => simp)]
  exact List.getElem_mem _

/-- Every point of the built grid is a non-negative multiple of the
accuracy step. -/
theorem gridOf_isTaccMult (input : Input) (gammaHzPerT : ℚ) (warned : Bool) :
    ∀ v ∈ gridOf input gammaHzPerT warned, IsTaccMult v := by
  intro v hv
  have hmultS : ∀ x ∈ (candidatesOf input gammaHzPerT warned).insertionSort
      (fun a b => a ≤ b), IsTaccMult x := by
    intro x hx
    exact candidatesOf_isTaccMult input gammaHzPerT warned x
      ((List.perm_insertionSort _ _).mem_iff.mp hx)
  have hmultD : ∀ x ∈ dedupAux none ((candidatesOf input gammaHzPerT warned).insertionSort
      (fun a b => a ≤ b)), IsTaccMult x :=
    fun x hx => hmultS x (dedupAux_subset _ _ _ hx)
  unfold gridOf gridFixup at hv
  split_ifs at hv with hlen hemp
  · rcases List.mem_append.mp hv with hv2 | hv2
    · exact hmultD v hv2
    · rcases List.mem_singleton.mp hv2 with rfl
      exact ⟨1, by ring⟩
  · rcases List.mem_append.mp hv with hv2 | hv2
    · exact hmultD v hv2
    · rcases List.mem_singleton.mp hv2 with rfl
      have hne : dedupAux none ((candidatesOf input gammaHzPerT warned).insertionSort
          (fun a b => a ≤ b)) ≠ [] := by
        intro hc
        rw [hc] at hemp
        simp at hemp
      obtain ⟨n, hn⟩ := hmultD _ (getLastD_mem _ hne)
      exact ⟨n + 1, by rw [hn]; push_cast; ring⟩
  · exact hmultD v hv

/-- Every rounded ADC sample time is a non-negative multiple of the
accuracy step. -/
theorem adcSecondsRounded_isTaccMult (input : Input) :
    ∀ ta ∈ adcSecondsRoundedOf input, IsTaccMult ta := by
  intro ta hta
  obtain ⟨v, _, rfl⟩ := List.mem_map.mp hta
  have h : internalToSecRounded input.tFactor v =
      addCandidate (internalToSeconds v input.tFactor) := by
    simp only [internalToSecRounded, addCandidate]
  rw [h]
  exact addCandidate_isTaccMult (internalToSeconds v input.tFactor)

set_option maxHeartbeats 2000000 in
/-- C8: ADC trajectory sampling.  For every rounded ADC query time `ta`
and any dense channel of the grid's length: at or before the first grid
point the first sample is returned, at or after the last grid point the
last sample, a query equal to a grid point returns that grid point's
value unchanged, and a query strictly between two adjacent grid points
returns their linear interpolation; moreover the `Result` ADC arrays are
exactly these samples. -/
theorem C8_adc_sampling (input : Input) (gammaHzPerT : ℚ) (warned : Bool)
    (hb : input.blocks.isEmpty = false) (he : 2 ≤ input.blockEdges.length)
    (ta : ℚ) (hta : ta ∈ adcSecondsRoundedOf input) (data : List ℚ)
    (hdlen : data.length = (gridOf input gammaHzPerT warned).length) :
    (ta ≤ (gridOf input gammaHzPerT warned).getD 0 0 →
      interpolateK (gridOf input gammaHzPerT warned) data ta = data.headD 0) ∧
    ((gridOf input gammaHzPerT warned).getD
        ((gridOf input gammaHzPerT warned).length - 1) 0 ≤ ta →
      interpolateK (gridOf input gammaHzPerT warned) data ta =
        data.getD ((gridOf input gammaHzPerT warned).length - 1) 0) ∧
    (∀ j < (gridOf input gammaHzPerT warned).length,
      ta = (gridOf input gammaHzPerT warned).getD j 0 →
      interpolateK (gridOf input gammaHzPerT warned) data ta = data.getD j 0) ∧
    (∀ j, j + 1 < (gridOf input gammaHzPerT warned).length →
      (gridOf input gammaHzPerT warned).getD j 0 < ta →
      ta < (gridOf input gammaHzPerT warned).getD (j + 1) 0 →
      interpolateK (gridOf input gammaHzPerT warned) data ta =
        data.getD j 0 + (data.getD (j + 1) 0 - data.getD j 0) *
          ((ta - (gridOf input gammaHzPerT warned).getD j 0) /
            ((gridOf input gammaHzPerT warned).getD (j + 1) 0 -
              (gridOf input gammaHzPerT warned).getD j 0))) ∧
    (compute input gammaHzPerT warned).1.kx_adc =
      (adcSecondsRoundedOf input).map
        (interpolateK (gridOf input gammaHzPerT warned)
          ((kDenseOf input gammaHzPerT warned).map Vec3.x)) := by
  obtain ⟨hch, _hnn, hlen2, _hmem⟩ := gridOf_props input gammaHzPerT warned
  have hmult := gridOf_isTaccMult input gammaHzPerT warned
  have htam := adcSecondsRounded_isTaccMult input ta hta
  refine ⟨?_, ?_, ?_, ?_, ?_⟩
  · intro h
    exact interpolateK_le_head _ data ta hlen2 h
  · intro h
    exact interpolateK_ge_last _ data ta hch hmult htam hlen2 hdlen h
  · intro j hj hje
    rw [hje]
    exact interpolateK_exact _ data j hch hlen2 hdlen hj
  · intro j hj hlo hhi
    exact interpolateK_interior _ data ta j hch hmult htam hj hlo hhi
  · simp only [compute_fst_eq input gammaHzPerT warned hb he, computeResult]

/-! ### C5: RF-use classification heuristic -/

/-- C5: with no explicit use tag, classification is excitation exactly
when the estimated flip angle is below 90.01 degrees; otherwise
saturation exactly when the derived duration exceeds 6 ms and the
off-resonance ppm lies in [-4.5, -3.0]; otherwise refocusing — and the
guessed flag is set exactly on this heuristic path. -/
theorem C5_rf_classification (blk : SeqBlock) (rf : RFEvent)
    (supportsMetadata : Bool) (b0Tesla gammaHzPerT : ℚ) (warned : Bool) :
    (¬(supportsMetadata = true ∧ rf.use ≠ Char.ofNat 0 ∧ rf.use ≠ 'u' ∧
        rf.use ≠ 'U') →
      (classifyRfUse blk rf supportsMetadata b0Tesla gammaHzPerT warned).2.1 = true ∧
      ((classifyRfUse blk rf supportsMetadata b0Tesla gammaHzPerT warned).1 = 'e' ↔
        flipAngleLtThreshold blk = true) ∧
      ((classifyRfUse blk rf supportsMetadata b0Tesla gammaHzPerT warned).1 = 's' ↔
        (flipAngleLtThreshold blk = false ∧ 6/1000 < rfDurationS blk ∧
          -(9/2) ≤ offResonancePPM rf b0Tesla gammaHzPerT ∧
          offResonancePPM rf b0Tesla gammaHzPerT ≤ -3)) ∧
      ((classifyRfUse blk rf supportsMetadata b0Tesla gammaHzPerT warned).1 = 'r' ↔
        (flipAngleLtThreshold blk = false ∧ ¬(6/1000 < rfDurationS blk ∧
          -(9/2) ≤ offResonancePPM rf b0Tesla gammaHzPerT ∧
          offResonancePPM rf b0Tesla gammaHzPerT ≤ -3)))) ∧
    ((supportsMetadata = true ∧ rf.use ≠ Char.ofNat 0 ∧ rf.use ≠ 'u' ∧
        rf.use ≠ 'U') →
      (classifyRfUse blk rf supportsMetadata b0Tesla gammaHzPerT warned).1 = rf.use ∧
      (classifyRfUse blk rf supportsMetadata b0Tesla gammaHzPerT warned).2.1 = false) := by
  constructor
  · intro h
    simp only [classifyRfUse, if_neg h]
    by_cases hf : flipAngleLtThreshold blk
    · rw [if_pos hf]
      refine ⟨rfl, by simp [hf], ?_, ?_⟩
      · refine iff_of_false (fun hc => ?_) (fun hc => ?_)
        · exact absurd (show ('e' : Char) = 's' from hc) (by decide)
        · rw [hf] at hc
          simp at hc
      · refine iff_of_false (fun hc => ?_) (fun hc => ?_)
        · exact absurd (show ('e' : Char) = 'r' from hc) (by decide)
        · rw [hf] at hc
          simp at hc
    · rw [if_neg hf]
      rw [Bool.not_eq_true] at hf
      by_cases hs : 6/1000 < rfDurationS blk ∧
          -(9/2) ≤ offResonancePPM rf b0Tesla gammaHzPerT ∧
          offResonancePPM rf b0Tesla gammaHzPerT ≤ -3
      · rw [if_pos hs]
        refine ⟨rfl, ?_, ?_, ?_⟩
        · refine iff_of_false (fun hc => ?_) (fun hc => ?_)
          · exact absurd (show ('s' : Char) = 'e' from hc) (by decide)
          · rw [hf] at hc
            simp at hc
        · exact iff_of_true rfl ⟨hf, hs.1, hs.2.1, hs.2.2⟩
        · refine iff_of_false (fun hc => ?_) (fun hc => ?_)
          · exact absurd (show ('s' : Char) = 'r' from hc) (by decide)
          · exact hc.2 hs
      · rw [if_neg hs]
        refine ⟨rfl, ?_, ?_, ?_⟩
        · refine iff_of_false (fun hc => ?_) (fun hc => ?_)
          · exact absurd (show ('r' : Char) = 'e' from hc) (by decide)
          · rw [hf] at hc
            simp at hc
        · refine iff_of_false (fun hc => ?_) (fun hc => ?_)
          · exact absurd (show ('r' : Char) = 's' from hc) (by decide)
          · exact hs hc.2
        · exact iff_of_true rfl ⟨hf, hs⟩
  · intro h
    unfold classifyRfUse
    rw [if_pos h]
    exact ⟨rfl, rfl⟩

/-- C5 witness: the tagless low-flip block classifies as excitation with
the guessed flag set. -/
theorem C5_rf_classification_witness :
    (classifyRfUse blockE rfEventE true 0 1 false).1 = 'e' ∧
    (classifyRfUse blockE rfEventE true 0 1 false).2.1 = true := by
  have h := (C5_rf_classification blockE rfEventE true 0 1 false).1
    (by simp [rfEventE])
  refine ⟨?_, h.1⟩
  rw [h.2.1]
  norm_num [flipAngleLtThreshold, blockE, rfEventE, normSq, usToS]

/-! ### C6: default-B0 warning accounting -/

/-- Per-call warning behaviour of `classifyRfUse`: it emits exactly when
the fallback code is reached with the static flag clear, and it raises
the static flag exactly when the fallback code is reached. -/
theorem classifyRfUse_warn (blk : SeqBlock) (rf : RFEvent) (s : Bool)
    (b0 γ : ℚ) (w : Bool) (hrf : blk.rf = some rf) :
    (classifyRfUse blk rf s b0 γ w).2.2.2 =
      (blockNeedsFallback s b0 (some blk) && !w) ∧
    (classifyRfUse blk rf s b0 γ w).2.2.1 =
      (w || blockNeedsFallback s b0 (some blk)) := by
  have hbf : blockNeedsFallback s b0 (some blk) =
      ((!decide (s = true ∧ rf.use ≠ Char.ofNat 0 ∧ rf.use ≠ 'u' ∧ rf.use ≠ 'U')) &&
        !flipAngleLtThreshold blk && decide (b0 ≤ 0)) := by
    simp only [blockNeedsFallback, hrf]
  rw [hbf]
  unfold classifyRfUse
  by_cases hexp : s = true ∧ rf.use ≠ Char.ofNat 0 ∧ rf.use ≠ 'u' ∧ rf.use ≠ 'U'
  · rw [if_pos hexp]
    simp [hexp]
  · rw [if_neg hexp]
    by_cases hf : flipAngleLtThreshold blk
    · rw [if_pos hf]
      simp [hexp, hf]
    · rw [if_neg hf]
      rw [Bool.not_eq_true] at hf
      by_cases hb0 : b0 ≤ 0
      · cases w <;>
          simp [hexp, hf, hb0] <;>
          split_ifs <;> simp_all
      · cases w <;>
          simp [hexp, hf, hb0] <;>
          split_ifs <;> simp_all

/-- Warning behaviour of one RF-scan step. -/
theorem rfScanStep_warn (input : Input) (γ : ℚ) (s : RfScanState)
    (ib : ℕ × Option SeqBlock) :
    (rfScanStep input γ s ib).warned =
      (s.warned || blockNeedsFallback input.supportsRfUseMetadata input.b0Tesla ib.2) ∧
    (rfScanStep input γ s ib).warnCount = s.warnCount +
      (if s.warned = false ∧
          blockNeedsFallback input.supportsRfUseMetadata input.b0Tesla ib.2 = true
        then 1 else 0) := by
  obtain ⟨i, ob⟩ := ib
  match hob : ob with
  | none => simp [rfScanStep, blockNeedsFallback]
  | some blk =>
    match hrf : blk.rf with
    | none =>
      simp only [rfScanStep, hrf, blockNeedsFallback]
      simp
    | some rf =>
      obtain ⟨hemit, hwarn⟩ := classifyRfUse_warn blk rf
        input.supportsRfUseMetadata input.b0Tesla γ s.warned hrf
      simp only [rfScanStep, hrf]
      split_ifs with h1 h2 <;>
        · cases hw : s.warned <;>
            cases hbf : blockNeedsFallback input.supportsRfUseMetadata input.b0Tesla
              (some blk) <;>
            simp_all [hemit, hwarn]

/-- Warning behaviour of the whole RF-scan fold. -/
theorem rfScanFold_warn (input : Input) (γ : ℚ)
    (lp : List (ℕ × Option SeqBlock)) (s : RfScanState) :
    (lp.foldl (rfScanStep input γ) s).warned =
      (s.warned || (lp.map Prod.snd).any
        (blockNeedsFallback input.supportsRfUseMetadata input.b0Tesla)) ∧
    (lp.foldl (rfScanStep input γ) s).warnCount = s.warnCount +
      (if s.warned = false ∧ (lp.map Prod.snd).any
          (blockNeedsFallback input.supportsRfUseMetadata input.b0Tesla) = true
        then 1 else 0) := by
  induction lp generalizing s with
  | nil => simp
  | cons ib rest ih =>
    rw [List.foldl_cons]
    obtain ⟨hw1, hc1⟩ := rfScanStep_warn input γ s ib
    obtain ⟨hw2, hc2⟩ := ih (rfScanStep input γ s ib)
    rw [hw2, hc2, hw1, hc1]
    constructor
    · cases hw : s.warned <;>
        cases hbf : blockNeedsFallback input.supportsRfUseMetadata input.b0Tesla ib.2 <;>
        simp [hbf]
    · cases hw : s.warned <;>
        cases hbf : blockNeedsFallback input.supportsRfUseMetadata input.b0Tesla ib.2 <;>
        cases hrest : (rest.map Prod.snd).any
          (blockNeedsFallback input.supportsRfUseMetadata input.b0Tesla) <;>
        simp [hbf, hrest]

/-- Warning behaviour of one invocation's RF scan. -/
theorem rfScanOf_warn (input : Input) (γ : ℚ) (w : Bool) :
    (rfScanOf input γ w).warned = (w || anyFallback input) ∧
    (rfScanOf input γ w).warnCount =
      (if w = false ∧ anyFallback input = true then 1 else 0) := by
  unfold rfScanOf anyFallback
  obtain ⟨h1, h2⟩ := rfScanFold_warn input γ input.blocks.enum (RfScanState.init w)
  rw [h1, h2]
  simp [RfScanState.init, List.enum_map_snd]

/-- Projections of `compute` on non-degenerate input: warning count and
exit flag come from the RF scan. -/
theorem compute_warn_eq (input : Input) (gammaHzPerT : ℚ) (warned : Bool)
    (hdeg : ¬(input.blocks.isEmpty = true ∨ input.blockEdges.length < 2)) :
    (compute input gammaHzPerT warned).2.2 = (rfScanOf input gammaHzPerT warned).warnCount ∧
    (compute input gammaHzPerT warned).2.1 = (rfScanOf input gammaHzPerT warned).warned := by
  unfold compute
  rw [if_neg hdeg]
  exact ⟨rfl, rfl⟩

/-- The fallback-triggering input `inputF` does trigger: its one block is
a tagless RF block with a 360-degree flip estimate, and `b0 = 0`. -/
theorem anyFallback_inputF : anyFallback inputF = true := by
  norm_num [anyFallback, blockNeedsFallback, inputF, blockR, rfEventR,
    flipAngleLtThreshold, normSq, usToS]

/-- C6, counterexample: the claim "the warning is emitted exactly once
per invocation, not once per process lifetime" fails.  On `inputF`
(B0 = 0 supplied, classification needs the ppm fallback) a first
invocation emits the warning once, but a second invocation started with
the warn-once static left by the first emits none. -/
theorem C6_counterexample :
    inputF.b0Tesla = 0 ∧ anyFallback inputF = true ∧
    (compute inputF 1000000 false).2.2 = 1 ∧
    (compute inputF 1000000 (compute inputF 1000000 false).2.1).2.2 = 0 := by
  have hdeg : ¬(inputF.blocks.isEmpty = true ∨ inputF.blockEdges.length < 2) := by
    norm_num [inputF]
  obtain ⟨hc1, hw1⟩ := compute_warn_eq inputF 1000000 false hdeg
  obtain ⟨hs1w, hs1c⟩ := rfScanOf_warn inputF 1000000 false
  refine ⟨rfl, anyFallback_inputF, ?_, ?_⟩
  · rw [hc1, hs1c]
    simp [anyFallback_inputF]
  · rw [hw1, hs1w]
    simp only [anyFallback_inputF, Bool.false_or]
    obtain ⟨hc2, _⟩ := compute_warn_eq inputF 1000000 true hdeg
    rw [hc2, (rfScanOf_warn inputF 1000000 true).2]
    simp

/-- C6, amended: when `b0 <= 0` the classifier proceeds exactly as with
an assumed 3.0 T field, and the default-B0 warning is emitted at most
once per process lifetime: one invocation emits at most one warning,
emits none when the process-wide flag is already set, and (on
non-degenerate input, flag clear) emits exactly one iff some block
reaches the fallback — after which the flag is set, so later invocations
emit none. -/
theorem C6_b0_warning_amended :
    (∀ (rf : RFEvent) (b0 γ : ℚ), b0 ≤ 0 →
      offResonancePPM rf b0 γ = offResonancePPM rf 3 γ) ∧
    (∀ (input : Input) (γ : ℚ) (w : Bool),
      (compute input γ w).2.2 ≤ 1 ∧
      (w = true → (compute input γ w).2.2 = 0) ∧
      (input.blocks.isEmpty = false → 2 ≤ input.blockEdges.length →
        ((compute input γ w).2.2 = 1 ↔ (w = false ∧ anyFallback input = true)) ∧
        (compute input γ w).2.1 = (w || anyFallback input))) := by
  constructor
  · intro rf b0 γ h
    simp only [offResonancePPM]
    rw [if_pos h, if_neg (by norm_num : ¬(3 : ℚ) ≤ 0)]
  · intro input γ w
    by_cases hdeg : (input.blocks.isEmpty = true ∨ input.blockEdges.length < 2)
    · have hc : compute input γ w = (Result.empty, w, 0) := by
        unfold compute
        rw [if_pos hdeg]
      rw [hc]
      refine ⟨by norm_num, fun _ => rfl, ?_⟩
      intro hb he
      rcases hdeg with hdeg | hdeg
      · rw [hb] at hdeg
        exact absurd hdeg (by simp)
      · exact absurd he (by omega)
    · obtain ⟨hcc, hcw⟩ := compute_warn_eq input γ w hdeg
      obtain ⟨hsw, hsc⟩ := rfScanOf_warn input γ w
      rw [hcc, hcw, hsw, hsc]
      refine ⟨by split_ifs <;> omega, ?_, ?_⟩
      · intro hwt
        rw [hwt]
        simp
      · intro hb he
        constructor
        · split_ifs with hP <;> simp [hP]
        · rfl

/-- C6 witness: the amended theorem applied at `inputF` — a fresh flag
yields exactly one warning, a set flag yields none. -/
theorem C6_b0_warning_amended_witness :
    (compute inputF 1000000 true).2.2 = 0 ∧
    (compute inputF 1000000 false).2.2 = 1 := by
  refine ⟨(C6_b0_warning_amended.2 inputF 1000000 true).2.1 rfl, ?_⟩
  exact ((C6_b0_warning_amended.2 inputF 1000000 false).2.2
    (by norm_num [inputF]) (by norm_num [inputF])).1.mpr ⟨rfl, anyFallback_inputF⟩

/-! ### C7: determinism and (in)dependence on shared state -/

/-- The use character and guessed flag of `classifyRfUse` do not depend
on the warn-once static. -/
theorem classifyRfUse_core_inv (blk : SeqBlock) (rf : RFEvent) (s : Bool)
    (b0 γ : ℚ) (w1 w2 : Bool) :
    (classifyRfUse blk rf s b0 γ w1).1 = (classifyRfUse blk rf s b0 γ w2).1 ∧
    (classifyRfUse blk rf s b0 γ w1).2.1 = (classifyRfUse blk rf s b0 γ w2).2.1 := by
  simp only [classifyRfUse]
  split_ifs <;> simp

/-- One RF-scan step preserves agreement of all non-warning fields
between two states that differ only in the warning fields. -/
theorem rfScanStep_core_inv (input : Input) (γ : ℚ) (ib : ℕ × Option SeqBlock)
    (e r es rs : List ℚ) (g : Bool) (u : List Char) (w1 w2 : Bool) (c1 c2 : ℕ) :
    (rfScanStep input γ ⟨e, r, es, rs, g, u, w1, c1⟩ ib).excitationTimesInternal =
      (rfScanStep input γ ⟨e, r, es, rs, g, u, w2, c2⟩ ib).excitationTimesInternal ∧
    (rfScanStep input γ ⟨e, r, es, rs, g, u, w1, c1⟩ ib).refocusingTimesInternal =
      (rfScanStep input γ ⟨e, r, es, rs, g, u, w2, c2⟩ ib).refocusingTimesInternal ∧
    (rfScanStep input γ ⟨e, r, es, rs, g, u, w1, c1⟩ ib).excSec =
      (rfScanStep input γ ⟨e, r, es, rs, g, u, w2, c2⟩ ib).excSec ∧
    (rfScanStep input γ ⟨e, r, es, rs, g, u, w1, c1⟩ ib).refSec =
      (rfScanStep input γ ⟨e, r, es, rs, g, u, w2, c2⟩ ib).refSec ∧
    (rfScanStep input γ ⟨e, r, es, rs, g, u, w1, c1⟩ ib).guessedAny =
      (rfScanStep input γ ⟨e, r, es, rs, g, u, w2, c2⟩ ib).guessedAny ∧
    (rfScanStep input γ ⟨e, r, es, rs, g, u, w1, c1⟩ ib).rfUsePerBlock =
      (rfScanStep input γ ⟨e, r, es, rs, g, u, w2, c2⟩ ib).rfUsePerBlock := by
  obtain ⟨i, ob⟩ := ib
  match ob with
  | none => exact ⟨rfl, rfl, rfl, rfl, rfl, rfl⟩
  | some blk =>
    match hrf : blk.rf with
    | none =>
      simp [rfScanStep, hrf]
    | some rf =>
      obtain ⟨hu, hg⟩ := classifyRfUse_core_inv blk rf input.supportsRfUseMetadata
        input.b0Tesla γ w1 w2
      simp only [rfScanStep, hrf, hu, hg]
      split_ifs <;> simp

/-- The RF-scan fold preserves the same agreement. -/
theorem rfScanFold_core_inv (input : Input) (γ : ℚ)
    (lp : List (ℕ × Option SeqBlock)) :
    ∀ (e r es rs : List ℚ) (g : Bool) (u : List Char) (w1 w2 : Bool) (c1 c2 : ℕ),
    (lp.foldl (rfScanStep input γ) ⟨e, r, es, rs, g, u, w1, c1⟩).excitationTimesInternal =
      (lp.foldl (rfScanStep input γ) ⟨e, r, es, rs, g, u, w2, c2⟩).excitationTimesInternal ∧
    (lp.foldl (rfScanStep input γ) ⟨e, r, es, rs, g, u, w1, c1⟩).refocusingTimesInternal =
      (lp.foldl (rfScanStep input γ) ⟨e, r, es, rs, g, u, w2, c2⟩).refocusingTimesInternal ∧
    (lp.foldl (rfScanStep input γ) ⟨e, r, es, rs, g, u, w1, c1⟩).excSec =
      (lp.foldl (rfScanStep input γ) ⟨e, r, es, rs, g, u, w2, c2⟩).excSec ∧
    (lp.foldl (rfScanStep input γ) ⟨e, r, es, rs, g, u, w1, c1⟩).refSec =
      (lp.foldl (rfScanStep input γ) ⟨e, r, es, rs, g, u, w2, c2⟩).refSec ∧
    (lp.foldl (rfScanStep input γ) ⟨e, r, es, rs, g, u, w1, c1⟩).guessedAny =
      (lp.foldl (rfScanStep input γ) ⟨e, r, es, rs, g, u, w2, c2⟩).guessedAny ∧
    (lp.foldl (rfScanStep input γ) ⟨e, r, es, rs, g, u, w1, c1⟩).rfUsePerBlock =
      (lp.foldl (rfScanStep input γ) ⟨e, r, es, rs, g, u, w2, c2⟩).rfUsePerBlock := by
  induction lp with
  | nil =>
    intro e r es rs g u w1 w2 c1 c2
    exact ⟨rfl, rfl, rfl, rfl, rfl, rfl⟩
  | cons ib rest ih =>
    intro e r es rs g u w1 w2 c1 c2
    rw [List.foldl_cons, List.foldl_cons]
    obtain ⟨h1, h2, h3, h4, h5, h6⟩ := rfScanStep_core_inv input γ ib e r es rs g u w1 w2 c1 c2
    obtain ⟨s1, hs1⟩ : ∃ s1, rfScanStep input γ ⟨e, r, es, rs, g, u, w1, c1⟩ ib = s1 :=
      ⟨_, rfl⟩
    obtain ⟨s2, hs2⟩ : ∃ s2, rfScanStep input γ ⟨e, r, es, rs, g, u, w2, c2⟩ ib = s2 :=
      ⟨_, rfl⟩
    rw [hs1, hs2] at h1 h2 h3 h4 h5 h6 ⊢
    obtain ⟨e1, r1, es1, rs1, g1, u1, wx1, cx1⟩ := s1
    obtain ⟨e2, r2, es2, rs2, g2, u2, wx2, cx2⟩ := s2
    simp only [RfScanState.mk.injEq] at h1 h2 h3 h4 h5 h6
    subst h1 h2 h3 h4 h5 h6
    exact ih e1 r1 es1 rs1 g1 u1 wx1 wx2 cx1 cx2

/-- The RF scan's non-warning outputs do not depend on the warn-once
static. -/
theorem rfScanOf_core_inv (input : Input) (γ : ℚ) (w1 w2 : Bool) :
    (rfScanOf input γ w1).excitationTimesInternal =
      (rfScanOf input γ w2).excitationTimesInternal ∧
    (rfScanOf input γ w1).refocusingTimesInternal =
      (rfScanOf input γ w2).refocusingTimesInternal ∧
    (rfScanOf input γ w1).excSec = (rfScanOf input γ w2).excSec ∧
    (rfScanOf input γ w1).refSec = (rfScanOf input γ w2).refSec ∧
    (rfScanOf input γ w1).guessedAny = (rfScanOf input γ w2).guessedAny ∧
    (rfScanOf input γ w1).rfUsePerBlock = (rfScanOf input γ w2).rfUsePerBlock := by
  unfold rfScanOf RfScanState.init
  exact rfScanFold_core_inv input γ input.blocks.enum [] [] [] [] false [] w1 w2 0 0

theorem candidatesOf_inv (input : Input) (γ : ℚ) (w1 w2 : Bool) :
    candidatesOf input γ w1 = candidatesOf input γ w2 := by
  obtain ⟨_, _, h3, h4, _, _⟩ := rfScanOf_core_inv input γ w1 w2
  simp only [candidatesOf, rawCandidatesOf]
  rw [h3, h4]

theorem gridOf_inv (input : Input) (γ : ℚ) (w1 w2 : Bool) :
    gridOf input γ w1 = gridOf input γ w2 := by
  unfold gridOf
  rw [candidatesOf_inv input γ w1 w2]

theorem integrateOf_inv (input : Input) (γ : ℚ) (w1 w2 : Bool) :
    integrateOf input γ w1 = integrateOf input γ w2 := by
  unfold integrateOf
  rw [gridOf_inv input γ w1 w2]

theorem excIdxOf_inv (input : Input) (γ : ℚ) (w1 w2 : Bool) :
    excIdxOf input γ w1 = excIdxOf input γ w2 := by
  obtain ⟨_, _, h3, _, _, _⟩ := rfScanOf_core_inv input γ w1 w2
  unfold excIdxOf
  rw [h3, gridOf_inv input γ w1 w2]

theorem refIdxOf_inv (input : Input) (γ : ℚ) (w1 w2 : Bool) :
    refIdxOf input γ w1 = refIdxOf input γ w2 := by
  obtain ⟨_, _, _, h4, _, _⟩ := rfScanOf_core_inv input γ w1 w2
  unfold refIdxOf
  rw [h4, gridOf_inv input γ w1 w2]

theorem boundariesOf_inv (input : Input) (γ : ℚ) (w1 w2 : Bool) :
    boundariesOf input γ w1 = boundariesOf input γ w2 := by
  unfold boundariesOf
  rw [excIdxOf_inv input γ w1 w2, refIdxOf_inv input γ w1 w2,
    gridOf_inv input γ w1 w2]

theorem kDenseOf_inv (input : Input) (γ : ℚ) (w1 w2 : Bool) :
    kDenseOf input γ w1 = kDenseOf input γ w2 := by
  unfold kDenseOf
  rw [excIdxOf_inv input γ w1 w2, refIdxOf_inv input γ w1 w2,
    boundariesOf_inv input γ w1 w2, integrateOf_inv input γ w1 w2]

theorem computeResult_inv (input : Input) (γ : ℚ) (w1 w2 : Bool) :
    computeResult input γ w1 = computeResult input γ w2 := by
  obtain ⟨h1, h2, _, _, h5, h6⟩ := rfScanOf_core_inv input γ w1 w2
  unfold computeResult
  rw [h1, h2, h5, h6, gridOf_inv input γ w1 w2, kDenseOf_inv input γ w1 w2,
    excIdxOf_inv input γ w1 w2]

/-- C7, amended: for a fixed gyromagnetic ratio (read from the global
`Settings` singleton), the produced `Result` is a function of the `Input`
alone — equal inputs and equal gamma give equal results, and the
process-wide warn-once static never influences the `Result`. -/
theorem C7_determinism_amended (i1 i2 : Input) (γ1 γ2 : ℚ) (w1 w2 : Bool)
    (hi : i1 = i2) (hγ : γ1 = γ2) :
    (compute i1 γ1 w1).1 = (compute i2 γ2 w2).1 := by
  subst hi
  subst hγ
  unfold compute
  split_ifs with hdeg
  · rfl
  · show computeResult i1 γ1 w1 = computeResult i1 γ1 w2
    exact computeResult_inv i1 γ1 w1 w2

/-- C7 witness: the amended theorem at `inputW` with the two possible
values of the warn-once static. -/
theorem C7_determinism_amended_witness :
    (compute inputW 1 false).1 = (compute inputW 1 true).1 :=
  C7_determinism_amended inputW inputW 1 1 false true rfl rfl

theorem computeResult_refocusing (input : Input) (γ : ℚ) (w : Bool) :
    (computeResult input γ w).refocusingTimesInternal =
      (rfScanOf input γ w).refocusingTimesInternal := by
  simp only [computeResult]

/-- With gamma 1e6 Hz/T, `inputF`'s block derives -3.45 ppm and is
classified saturation: no refocusing center is recorded. -/
theorem rfScan_inputF_hi :
    (rfScanOf inputF 1000000 false).refocusingTimesInternal = [] := by
  norm_num [rfScanOf, rfScanStep, RfScanState.init, classifyRfUse,
    flipAngleLtThreshold, rfDurationS, offResonancePPM, rfCenterUs, qAbs,
    inputF, blockR, rfEventR, normSq, usToS, List.enum, List.enumFrom,
    internalToSecRounded, internalToSeconds, roundAcc, clampNonNegative,
    llroundQ, tacc, show ('s' : Char) ≠ 'e' from by decide,
    show ('s' : Char) ≠ 'E' from by decide,
    show ('s' : Char) ≠ 'r' from by decide,
    show ('s' : Char) ≠ 'R' from by decide]

/-- With gamma 1 Hz/T the same block derives -3450000 ppm, outside the
saturation band: it is classified refocusing, recording center time 0. -/
theorem rfScan_inputF_lo :
    (rfScanOf inputF 1 false).refocusingTimesInternal = [0] := by
  norm_num [rfScanOf, rfScanStep, RfScanState.init, classifyRfUse,
    flipAngleLtThreshold, rfDurationS, offResonancePPM, rfCenterUs, qAbs,
    inputF, blockR, rfEventR, normSq, usToS, List.enum, List.enumFrom,
    internalToSecRounded, internalToSeconds, roundAcc, clampNonNegative,
    llroundQ, tacc, show ('r' : Char) ≠ 'e' from by decide,
    show ('r' : Char) ≠ 'E' from by decide]

/-- C7, counterexample: `compute` is not a function of the `Input`
structure alone — it also reads the gyromagnetic ratio from the mutable
`Settings` singleton (line 392).  With the same `Input` (`inputF`), two
runs under different stored gamma values produce different `Result`s:
the RF block is classified saturation under 1e6 Hz/T but refocusing under
1 Hz/T. -/
theorem C7_counterexample :
    (compute inputF 1000000 false).1.refocusingTimesInternal = [] ∧
    (compute inputF 1 false).1.refocusingTimesInternal = [0] ∧
    (compute inputF 1000000 false).1 ≠ (compute inputF 1 false).1 := by
  have hdeg : ¬(inputF.blocks.isEmpty = true ∨ inputF.blockEdges.length < 2) := by
    norm_num [inputF]
  have h1 : (compute inputF 1000000 false).1.refocusingTimesInternal = [] := by
    rw [compute_fst_eq inputF 1000000 false (by norm_num [inputF]) (by norm_num [inputF]),
      computeResult_refocusing, rfScan_inputF_hi]
  have h2 : (compute inputF 1 false).1.refocusingTimesInternal = [0] := by
    rw [compute_fst_eq inputF 1 false (by norm_num [inputF]) (by norm_num [inputF]),
      computeResult_refocusing, rfScan_inputF_lo]
  refine ⟨h1, h2, fun hc => ?_⟩
  rw [hc, h2] at h1
  exact absurd h1 (by simp)

/-! ### Length preservation through the trajectory stages -/

theorem integrateAux_length (g : ℚ → Vec3) (l : List ℚ) :
    ∀ (tPrev : ℚ) (kPrev : Vec3), (integrateAux g l tPrev kPrev).length = l.length := by
  induction l with
  | nil => intro tPrev kPrev; rfl
  | cons t rest ih =>
    intro tPrev kPrev
    simp only [integrateAux, List.length_cons]
    rw [ih]

theorem integrateK_length (g : ℚ → Vec3) (grid : List ℚ) :
    (integrateK g grid).length = grid.length := by
  cases grid with
  | nil => rfl
  | cons t0 rest =>
    simp only [integrateK, List.length_cons]
    rw [integrateAux_length]

theorem applySeg_length (k : List Vec3) (dk : Vec3) (s e : ℕ) :
    (applySeg k dk s e).length = k.length := by
  simp [applySeg]

theorem segLoop_snd_length (bnd : List ℕ) :
    ∀ (exc ref : List ℕ) (dk : Vec3) (k : List Vec3),
      ((segLoop exc ref bnd dk k).2).length = k.length := by
  induction bnd with
  | nil => intro exc ref dk k; rfl
  | cons b0 rest ih =>
    intro exc ref dk k
    cases rest with
    | nil => rfl
    | cons b1 rest2 =>
      simp only [segLoop]
      split_ifs with h1 h2 <;> rw [ih] <;> rw [applySeg_length]

theorem applyOffsets_length (exc ref bnd : List ℕ) (k : List Vec3) :
    (applyOffsets exc ref bnd k).length = k.length := by
  unfold applyOffsets
  cases bnd.getLast? with
  | none => simp [segLoop_snd_length]
  | some last => simp [segLoop_snd_length]

theorem kDenseOf_length (input : Input) (γ : ℚ) (w : Bool) :
    (kDenseOf input γ w).length = (gridOf input γ w).length := by
  unfold kDenseOf integrateOf
  rw [applyOffsets_length, integrateK_length]

theorem markBreaks_length (exc : List ℕ) :
    ∀ (k : List (Option ℚ)), (markBreaks k exc).length = k.length := by
  induction exc with
  | nil => intro k; rfl
  | cons idx rest ih =>
    intro k
    simp only [markBreaks, List.foldl_cons]
    rw [show (rest.foldl (fun p i => if 0 < i then p.set (i - 1) none else p)
      (if 0 < idx then k.set (idx - 1) none else k)) =
      markBreaks (if 0 < idx then k.set (idx - 1) none else k) rest from rfl, ih]
    split_ifs <;> simp

/-! ### C9: degenerate input -/

/-- C9: on degenerate input (no blocks, or fewer than two block edges)
`compute` returns the default-constructed empty `Result` and changes no
process state; on any other input — including one with no gradient
events at all — it returns a structurally valid `Result`: a grid of at
least two points with dense channels of the grid's length and ADC
channels of the ADC time list's length. -/
theorem C9_degenerate (input : Input) (gammaHzPerT : ℚ) (warned : Bool) :
    ((input.blocks = [] ∨ input.blockEdges.length < 2) →
      compute input gammaHzPerT warned = (Result.empty, warned, 0)) ∧
    (input.blocks ≠ [] → 2 ≤ input.blockEdges.length →
      2 ≤ (compute input gammaHzPerT warned).1.t.length ∧
      (compute input gammaHzPerT warned).1.kx.length =
        (compute input gammaHzPerT warned).1.t.length ∧
      (compute input gammaHzPerT warned).1.ky.length =
        (compute input gammaHzPerT warned).1.t.length ∧
      (compute input gammaHzPerT warned).1.kz.length =
        (compute input gammaHzPerT warned).1.t.length ∧
      (compute input gammaHzPerT warned).1.kx_adc.length =
        (compute input gammaHzPerT warned).1.t_adc.length ∧
      (compute input gammaHzPerT warned).1.ky_adc.length =
        (compute input gammaHzPerT warned).1.t_adc.length ∧
      (compute input gammaHzPerT warned).1.kz_adc.length =
        (compute input gammaHzPerT warned).1.t_adc.length) := by
  constructor
  · intro h
    unfold compute
    rw [if_pos]
    rcases h with h | h
    · left
      simp [h]
    · right
      exact h
  · intro hb he
    have hb2 : input.blocks.isEmpty = false := by
      cases hbl : input.blocks with
      | nil => exact absurd hbl hb
      | cons a rest => simp
    rw [compute_fst_eq input gammaHzPerT warned hb2 he]
    simp only [computeResult]
    obtain ⟨_, _, hlen2, _⟩ := gridOf_props input gammaHzPerT warned
    refine ⟨hlen2, ?_, ?_, ?_, by simp, by simp, by simp⟩ <;>
      rw [markBreaks_length] <;> simp [kDenseOf_length]

/-- C9 witness: the fully degenerate `inputD` yields the empty result;
the gradient-free `inputW` still yields a two-point grid. -/
theorem C9_degenerate_witness :
    compute inputD 1 false = (Result.empty, false, 0) ∧
    2 ≤ (compute inputW 1 false).1.t.length := by
  refine ⟨(C9_degenerate inputD 1 false).1 (Or.inl rfl), ?_⟩
  exact ((C9_degenerate inputW 1 false).2 (by norm_num [inputW])
    (by norm_num [inputW])).1

/-- Concrete evaluation: the grid of `inputW2` is `[0, 1/2, 1]`. -/
theorem gridOf_inputW2_eval : gridOf inputW2 1 false = [0, 1/2, 1] := by
  norm_num [gridOf, gridFixup, dedupAux, candidatesOf, rawCandidatesOf, seriesTimesSec,
    sanitizeGradientSeries, totalDurationSecOf, adcSecondsRoundedOf, internalToSecRounded,
    internalToSeconds, roundAcc, clampNonNegative, llroundQ, tacc, qAbs, rfScanOf,
    rfScanStep, RfScanState.init, rfRasterSecOf, inputW2, blockTrivial, addCandidate,
    List.insertionSort, List.orderedInsert, List.enum, List.enumFrom]

/-- C8 witness: for `inputW2` the ADC query time 0.5 s coincides with
grid point index 1, and sampling the dense channel `[10, 20, 30]` there
returns 20 unchanged. -/
theorem C8_adc_sampling_witness :
    interpolateK (gridOf inputW2 1 false) [10, 20, 30] (1/2) = 20 := by
  have h := (C8_adc_sampling inputW2 1 false (by norm_num [inputW2])
    (by norm_num [inputW2]) (1/2)
    (by
      norm_num [adcSecondsRoundedOf, internalToSecRounded, internalToSeconds,
        roundAcc, clampNonNegative, llroundQ, tacc, inputW2])
    [10, 20, 30] (by rw [gridOf_inputW2_eval]; norm_num)).2.2.1
  have h1 := h 1 (by rw [gridOf_inputW2_eval]; norm_num)
    (by rw [gridOf_inputW2_eval]; norm_num)
  rw [h1]
  norm_num

/-- C4 witness: the grid of the minimal input `inputW` is `[0, 1]`, and
the theorem instantiates on it. -/
theorem C4_time_grid_witness :
    ((compute inputW 1 false).1.t.getD 0 0 < (compute inputW 1 false).1.t.getD 1 0) ∧
    2 ≤ (compute inputW 1 false).1.t.length := by
  have h := C4_time_grid inputW 1 false (by norm_num [inputW]) (by norm_num [inputW])
  refine ⟨h.1 0 ?_, h.2.2.1⟩
  have := h.2.2.1
  omega

/-! ### C1/C2: offset application at excitation and refocusing boundaries -/

theorem Vec3.sub_self_eq (a : Vec3) : Vec3.sub a a = Vec3.zero := by
  cases a
  simp [Vec3.sub, Vec3.zero]

theorem Vec3.add_neg_eq_sub (a b : Vec3) : Vec3.add a (Vec3.neg b) = Vec3.sub a b := by
  cases a
  cases b
  simp only [Vec3.add, Vec3.neg, Vec3.sub, Vec3.mk.injEq]
  refine ⟨by ring, by ring, by ring⟩

theorem getD_applySeg (k : List Vec3) (dk : Vec3) (s e j : ℕ) :
    (applySeg k dk s e).getD j Vec3.zero =
      if s ≤ j ∧ j < e ∧ j < k.length then
        Vec3.add (k.getD j Vec3.zero) dk
      else k.getD j Vec3.zero := by
  by_cases hj : j < k.length
  · rw [List.getD_eq_getElem _ _ (by rw [applySeg_length]; exact hj),
      List.getD_eq_getElem _ _ hj]
    unfold applySeg
    rw [List.getElem_mapIdx]
    split_ifs with h1 h2 <;> simp_all
  · rw [List.getD_eq_getElem?_getD, List.getD_eq_getElem?_getD,
      List.getElem?_eq_none (by rw [applySeg_length]; omega),
      List.getElem?_eq_none (by omega)]
    simp [hj]

/-- Indices below every boundary are untouched by the segment loop. -/
theorem segLoop_frame (bnd : List ℕ) :
    ∀ (exc ref : List ℕ) (dk : Vec3) (k : List Vec3) (j : ℕ),
      (∀ b ∈ bnd, j < b) →
      ((segLoop exc ref bnd dk k).2).getD j Vec3.zero = k.getD j Vec3.zero := by
  induction bnd with
  | nil => intro exc ref dk k j _; rfl
  | cons b0 rest ih =>
    intro exc ref dk k j hj
    cases rest with
    | nil => rfl
    | cons b1 rest2 =>
      have hb0 : j < b0 := hj b0 (List.mem_cons_self _ _)
      have happ : ∀ dk2, (applySeg k dk2 b0 b1).getD j Vec3.zero = k.getD j Vec3.zero := by
        intro dk2
        rw [getD_applySeg]
        rw [if_neg (by omega)]
      simp only [segLoop]
      split_ifs with h1 h2 <;>
        rw [ih _ _ _ _ j (fun b hb => hj b (List.mem_cons_of_mem _ hb)), happ]

theorem chain'_lt_head_le (l : List ℕ) (hch : List.Chain' (· < ·) l) (h : ℕ)
    (hh : l.head? = some h) : ∀ x ∈ l, h ≤ x := by
  intro x hx
  cases l with
  | nil => simp at hx
  | cons a rest =>
    rw [List.head?_cons, Option.some.injEq] at hh
    subst hh
    rcases List.mem_cons.mp hx with rfl | hx2
    · exact le_refl _
    · have := List.chain'_iff_pairwise.mp hch
      exact le_of_lt ((List.pairwise_cons.mp this).1 x hx2)

/-- In a sorted list, a member that bounds every element from below is
the head. -/
theorem chain'_head_eq_of_min (l : List ℕ) (hch : List.Chain' (· < ·) l) (s : ℕ)
    (hs : s ∈ l) (hmin : ∀ x ∈ l, s ≤ x) : l.head? = some s := by
  cases l with
  | nil => simp at hs
  | cons a rest =>
    rw [List.head?_cons, Option.some.injEq]
    rcases List.mem_cons.mp hs with rfl | hs2
    · rfl
    · have h1 : s ≤ a := hmin a (List.mem_cons_self _ _)
      have h2 : a < s := by
        have := List.chain'_iff_pairwise.mp hch
        exact (List.pairwise_cons.mp this).1 s hs2
      omega

/-- Main excitation lemma for the segment loop: at a boundary `s` that
is an excitation index (with `e` the following boundary), every sample
in `[s, e)` of the loop's output equals the original sample minus the
original sample at `s` — the offset applied is the negated accumulated
value at the boundary. -/
theorem segLoop_excitation (pre : List ℕ) :
    ∀ (exc ref : List ℕ) (dk : Vec3) (k : List Vec3) (s e : ℕ) (post : List ℕ),
      List.Chain' (· < ·) (pre ++ s :: e :: post) →
      List.Chain' (· < ·) exc →
      (∀ x ∈ exc, x ∈ pre ++ s :: e :: post) →
      s ∈ exc →
      (∀ b ∈ pre ++ s :: e :: post, b < k.length) →
      ∀ j, s ≤ j → j < e →
        ((segLoop exc ref (pre ++ s :: e :: post) dk k).2).getD j Vec3.zero =
          Vec3.sub (k.getD j Vec3.zero) (k.getD s Vec3.zero) := by
  induction pre with
  | nil =>
    intro exc ref dk k s e post hbnd hexc hsub hs hrange j hjs hje
    simp only [List.nil_append] at hbnd hsub hrange ⊢
    have hmin : ∀ x ∈ exc, s ≤ x := fun x hx =>
      chain'_lt_head_le _ hbnd s rfl x (hsub x hx)
    have hhead : exc.head? = some s := chain'_head_eq_of_min exc hexc s hs hmin
    have hjk : j < k.length := by
      have := hrange e (by simp)
      omega
    simp only [segLoop, hhead, if_pos]
    rw [segLoop_frame (e :: post) _ _ _ _ j ?later]
    case later =>
      intro b hb
      rcases List.mem_cons.mp hb with rfl | hb2
      · exact hje
      · have hp := List.chain'_iff_pairwise.mp hbnd.tail
        have := (List.pairwise_cons.mp hp).1 b hb2
        omega
    rw [getD_applySeg, if_pos ⟨hjs, hje, hjk⟩, Vec3.add_neg_eq_sub]
  | cons p pre2 ih =>
    intro exc ref dk k s e post hbnd hexc hsub hs hrange j hjs hje
    simp only [List.cons_append] at hbnd hsub hrange ⊢
    have hplt : ∀ x ∈ pre2 ++ s :: e :: post, p < x := by
      have hp := List.chain'_iff_pairwise.mp hbnd
      exact fun x hx => (List.pairwise_cons.mp hp).1 x hx
    have hps : p < s := hplt s (by simp)
    cases hpp : pre2 ++ s :: e :: post with
    | nil => simp at hpp
    | cons b1 rest2 =>
      have hb1s : b1 ≤ s := by
        apply chain'_lt_head_le (b1 :: rest2) (hpp ▸ hbnd.tail) b1 rfl
        rw [← hpp]
        simp
      have hk1 : ∀ dk2, ∀ m, s ≤ m → m < k.length →
          (applySeg k dk2 p b1).getD m Vec3.zero = k.getD m Vec3.zero := by
        intro dk2 m hm hmk
        rw [getD_applySeg, if_neg (by omega)]
      have hrange2 : ∀ dk2, ∀ b ∈ pre2 ++ s :: e :: post,
          b < (applySeg k dk2 p b1).length := by
        intro dk2 b hb
        rw [applySeg_length]
        exact hrange b (List.mem_cons_of_mem _ hb)
      have hsk : s < k.length := hrange s (by simp)
      have hjk : j < k.length := by
        have := hrange e (by simp)
        omega
      have hbnd2 : List.Chain' (· < ·) (pre2 ++ s :: e :: post) := hbnd.tail
      simp only [segLoop]
      split_ifs with h1 h2
      · -- excitation branch consumes p from exc
        have hexc2 : List.Chain' (· < ·) exc.tail := List.Chain'.tail hexc
        have hsubt : ∀ x ∈ exc.tail, x ∈ pre2 ++ s :: e :: post := by
          intro x hx
          cases hexcl : exc with
          | nil => rw [hexcl] at hx; simp at hx
          | cons a t =>
            rw [hexcl] at hx h1
            simp only [List.head?_cons, Option.some.injEq] at h1
            simp only [List.tail_cons] at hx
            have hgt : p < x := by
              have hpw := List.chain'_iff_pairwise.mp hexc
              rw [hexcl] at hpw
              have := (List.pairwise_cons.mp hpw).1 x hx
              omega
            have hmem : x ∈ p :: (pre2 ++ s :: e :: post) := by
              apply hsub
              rw [hexcl]
              exact List.mem_cons_of_mem _ hx
            rcases List.mem_cons.mp hmem with rfl | hx3
            · omega
            · exact hx3
        have hst : s ∈ exc.tail := by
          cases hexcl : exc with
          | nil => rw [hexcl] at hs; simp at hs
          | cons a t =>
            rw [hexcl] at hs h1
            simp only [List.head?_cons, Option.some.injEq] at h1
            rcases List.mem_cons.mp hs with rfl | hs2
            · omega
            · simpa using hs2
        have hres := ih exc.tail ref (Vec3.neg (k.getD p Vec3.zero))
          (applySeg k (Vec3.neg (k.getD p Vec3.zero)) p b1) s e post
          hbnd2 hexc2 hsubt hst (hrange2 _) j hjs hje
        rw [hpp] at hres
        rw [hres, hk1 _ j hjs hjk, hk1 _ s (le_refl s) hsk]
      · -- refocusing branch: exc unchanged
        have hxnp : ∀ x ∈ exc, x ≠ p := by
          intro x hx hxp
          subst hxp
          have hmin : ∀ y ∈ exc, x ≤ y := by
            intro y hy
            rcases List.mem_cons.mp (hsub y hy) with rfl | hy2
            · exact le_refl _
            · exact le_of_lt (hplt y hy2)
          exact h1 (chain'_head_eq_of_min exc hexc x hx hmin)
        have hsubt : ∀ x ∈ exc, x ∈ pre2 ++ s :: e :: post := by
          intro x hx
          rcases List.mem_cons.mp (hsub x hx) with rfl | hx2
          · exact absurd rfl (hxnp x hx)
          · exact hx2
        have hres := ih exc ref.tail
          (Vec3.sub (Vec3.smul (-2) (k.getD p Vec3.zero)) dk)
          (applySeg k (Vec3.sub (Vec3.smul (-2) (k.getD p Vec3.zero)) dk) p b1)
          s e post hbnd2 hexc hsubt hs (hrange2 _) j hjs hje
        rw [hpp] at hres
        rw [hres, hk1 _ j hjs hjk, hk1 _ s (le_refl s) hsk]
      · -- plain segment: nothing consumed
        have hxnp : ∀ x ∈ exc, x ≠ p := by
          intro x hx hxp
          subst hxp
          have hmin : ∀ y ∈ exc, x ≤ y := by
            intro y hy
            rcases List.mem_cons.mp (hsub y hy) with rfl | hy2
            · exact le_refl _
            · exact le_of_lt (hplt y hy2)
          exact h1 (chain'_head_eq_of_min exc hexc x hx hmin)
        have hsubt : ∀ x ∈ exc, x ∈ pre2 ++ s :: e :: post := by
          intro x hx
          rcases List.mem_cons.mp (hsub x hx) with rfl | hx2
          · exact absurd rfl (hxnp x hx)
          · exact hx2
        have hres := ih exc ref dk (applySeg k dk p b1) s e post
          hbnd2 hexc hsubt hs (hrange2 _) j hjs hje
        rw [hpp] at hres
        rw [hres, hk1 _ j hjs hjk, hk1 _ s (le_refl s) hsk]

theorem Vec3.add_sub_cancel_left (a b : Vec3) : Vec3.sub (Vec3.add a b) a = b := by
  cases a
  cases b
  simp only [Vec3.add, Vec3.sub, Vec3.mk.injEq]
  refine ⟨by ring, by ring, by ring⟩

theorem mem_of_head?_eq (l : List ℕ) (h : ℕ) (hh : l.head? = some h) : h ∈ l := by
  cases l with
  | nil => simp at hh
  | cons a rest =>
    rw [List.head?_cons, Option.some.injEq] at hh
    rw [hh]
    exact List.mem_cons_self _ _

theorem segLoop_step (exc ref : List ℕ) (start endIdx : ℕ) (rest : List ℕ)
    (dk : Vec3) (k : List Vec3) :
    segLoop exc ref (start :: endIdx :: rest) dk k =
      if exc.head? = some start then
        segLoop exc.tail ref (endIdx :: rest) (Vec3.neg (k.getD start Vec3.zero))
          (applySeg k (Vec3.neg (k.getD start Vec3.zero)) start endIdx)
      else if ref.head? = some start then
        segLoop exc ref.tail (endIdx :: rest)
          (Vec3.sub (Vec3.smul (-2) (k.getD start Vec3.zero)) dk)
          (applySeg k (Vec3.sub (Vec3.smul (-2) (k.getD start Vec3.zero)) dk) start endIdx)
      else
        segLoop exc ref (endIdx :: rest) dk (applySeg k dk start endIdx) := rfl

/-- Main refocusing lemma for the segment loop: at a boundary `s` that is
a refocusing index (with previous boundary `p` and following boundary
`e`), and provided no index is both an excitation and a refocusing index,
every output sample in `[s, e)` equals the original sample plus
`-2 k(s) - previousOffset`, where the previous offset is observable as
`output - original` at any index of the preceding segment `[p, s)`. -/
theorem segLoop_refocusing (pre : List ℕ) :
    ∀ (exc ref : List ℕ) (dk : Vec3) (k : List Vec3) (p s e : ℕ) (post : List ℕ),
      List.Chain' (· < ·) (pre ++ p :: s :: e :: post) →
      List.Chain' (· < ·) exc →
      List.Chain' (· < ·) ref →
      (∀ x ∈ exc, x ∈ pre ++ p :: s :: e :: post) →
      (∀ x ∈ ref, x ∈ pre ++ p :: s :: e :: post) →
      (∀ x ∈ exc, x ∉ ref) →
      s ∈ ref →
      (∀ b ∈ pre ++ p :: s :: e :: post, b < k.length) →
      ∀ j, s ≤ j → j < e → ∀ i, p ≤ i → i < s →
        ((segLoop exc ref (pre ++ p :: s :: e :: post) dk k).2).getD j Vec3.zero =
          Vec3.add (k.getD j Vec3.zero)
            (Vec3.sub (Vec3.smul (-2) (k.getD s Vec3.zero))
              (Vec3.sub
                (((segLoop exc ref (pre ++ p :: s :: e :: post) dk k).2).getD i Vec3.zero)
                (k.getD i Vec3.zero))) := by
  induction pre with
  | nil =>
    intro exc ref dk k p s e post hbnd hexc href hsubE hsubR hdisj hs hrange
    intro j hjs hje i hip his
    simp only [List.nil_append] at hbnd hsubE hsubR hrange ⊢
    have hps : p < s := by
      have hp := List.chain'_iff_pairwise.mp hbnd
      exact (List.pairwise_cons.mp hp).1 s (by simp)
    have hse : s < e := by
      have hp := List.chain'_iff_pairwise.mp hbnd.tail
      exact (List.pairwise_cons.mp hp).1 e (by simp)
    have hpost : ∀ b ∈ post, e < b := by
      have hp := List.chain'_iff_pairwise.mp hbnd.tail.tail
      exact fun b hb => (List.pairwise_cons.mp hp).1 b hb
    have hsk : s < k.length := hrange s (by simp)
    have hik : i < k.length := by omega
    have hjk : j < k.length := by
      have := hrange e (by simp)
      omega
    -- after the step at p (any branch), the refocusing step fires at s
    have hkey : ∀ (exc2 ref2 : List ℕ) (dkb : Vec3),
        (∀ x ∈ exc2, x ∈ exc) → (∀ x ∈ ref2, x ∈ ref) →
        (∀ x ∈ ref2, s ≤ x) → s ∈ ref2 →
        List.Chain' (· < ·) ref2 →
        ((segLoop exc2 ref2 (s :: e :: post) dkb (applySeg k dkb p s)).2).getD j Vec3.zero =
          Vec3.add (k.getD j Vec3.zero)
            (Vec3.sub (Vec3.smul (-2) (k.getD s Vec3.zero))
              (Vec3.sub
                (((segLoop exc2 ref2 (s :: e :: post) dkb (applySeg k dkb p s)).2).getD i
                  Vec3.zero)
                (k.getD i Vec3.zero))) := by
      intro exc2 ref2 dkb hsub2E hsub2R hmin2 hs2 href2
      have hnotexc : ¬exc2.head? = some s := by
        intro hh
        exact hdisj s (hsub2E s (mem_of_head?_eq _ _ hh)) hs
      have hrefhead : ref2.head? = some s := chain'_head_eq_of_min ref2 href2 s hs2 hmin2
      rw [segLoop_step, if_neg hnotexc, if_pos hrefhead]
      have hfr : ∀ m, m < e →
          ((segLoop exc2 ref2.tail (e :: post)
            (Vec3.sub (Vec3.smul (-2)
              ((applySeg k dkb p s).getD s Vec3.zero)) dkb)
            (applySeg (applySeg k dkb p s)
              (Vec3.sub (Vec3.smul (-2)
                ((applySeg k dkb p s).getD s Vec3.zero)) dkb) s e)).2).getD m Vec3.zero =
          (applySeg (applySeg k dkb p s)
            (Vec3.sub (Vec3.smul (-2)
              ((applySeg k dkb p s).getD s Vec3.zero)) dkb) s e).getD m Vec3.zero := by
        intro m hm
        apply segLoop_frame
        intro b hb
        rcases List.mem_cons.mp hb with rfl | hb2
        · exact hm
        · have := hpost b hb2
          omega
      have hk1s : (applySeg k dkb p s).getD s Vec3.zero = k.getD s Vec3.zero := by
        rw [getD_applySeg, if_neg (by omega)]
      have hk1j : (applySeg k dkb p s).getD j Vec3.zero = k.getD j Vec3.zero := by
        rw [getD_applySeg, if_neg (by omega)]
      have hk1i : (applySeg k dkb p s).getD i Vec3.zero =
          Vec3.add (k.getD i Vec3.zero) dkb := by
        rw [getD_applySeg, if_pos ⟨hip, his, hik⟩]
      have hk2j : (applySeg (applySeg k dkb p s)
          (Vec3.sub (Vec3.smul (-2) ((applySeg k dkb p s).getD s Vec3.zero)) dkb)
          s e).getD j Vec3.zero =
          Vec3.add (k.getD j Vec3.zero)
            (Vec3.sub (Vec3.smul (-2) (k.getD s Vec3.zero)) dkb) := by
        rw [getD_applySeg, if_pos ⟨hjs, hje, by rw [applySeg_length]; exact hjk⟩,
          hk1j, hk1s]
      have hk2i : (applySeg (applySeg k dkb p s)
          (Vec3.sub (Vec3.smul (-2) ((applySeg k dkb p s).getD s Vec3.zero)) dkb)
          s e).getD i Vec3.zero = Vec3.add (k.getD i Vec3.zero) dkb := by
        rw [getD_applySeg, if_neg (by omega), hk1i]
      rw [hfr j hje, hfr i (by omega), hk2j, hk2i, Vec3.add_sub_cancel_left]
    have hplt : ∀ x, x ∈ p :: s :: e :: post → p ≤ x := by
      intro x hx
      exact chain'_lt_head_le _ hbnd p rfl x hx
    have hpltS : ∀ x, x ∈ s :: e :: post → s ≤ x := by
      intro x hx
      exact chain'_lt_head_le _ hbnd.tail s rfl x hx
    rw [segLoop_step]
    split_ifs with h1 h2
    · -- excitation consumed p
      apply hkey exc.tail ref
      · intro x hx
        exact List.mem_of_mem_tail hx
      · intro x hx
        exact hx
      · intro x hx
        rcases List.mem_cons.mp (hsubR x hx) with rfl | hx2
        · exact absurd hx (hdisj x (mem_of_head?_eq _ _ h1))
        · exact hpltS x hx2
      · exact hs
      · exact href
    · -- refocusing consumed p
      have hreftail : ∀ x ∈ ref.tail, s ≤ x := by
        intro x hx
        cases hrefl : ref with
        | nil => rw [hrefl] at hx; simp at hx
        | cons a t =>
          rw [hrefl] at hx h2
          simp only [List.head?_cons, Option.some.injEq] at h2
          simp only [List.tail_cons] at hx
          have hgt : p < x := by
            have hpw := List.chain'_iff_pairwise.mp href
            rw [hrefl] at hpw
            have := (List.pairwise_cons.mp hpw).1 x hx
            omega
          rcases List.mem_cons.mp (hsubR x (by rw [hrefl]; exact List.mem_cons_of_mem _ hx)) with
            rfl | hx2
          · omega
          · exact hpltS x hx2
      apply hkey exc ref.tail
      · intro x hx
        exact hx
      · intro x hx
        exact List.mem_of_mem_tail hx
      · exact hreftail
      · cases hrefl : ref with
        | nil => rw [hrefl] at hs; simp at hs
        | cons a t =>
          rw [hrefl] at hs h2
          simp only [List.head?_cons, Option.some.injEq] at h2
          rcases List.mem_cons.mp hs with rfl | hs2
          · omega
          · simpa using hs2
      · exact List.Chain'.tail href
    · -- plain step at p
      apply hkey exc ref
      · intro x hx
        exact hx
      · intro x hx
        exact hx
      · intro x hx
        rcases List.mem_cons.mp (hsubR x hx) with rfl | hx2
        · exfalso
          apply h2
          apply chain'_head_eq_of_min ref href x hx
          intro y hy
          exact hplt y (hsubR y hy)
        · exact hpltS x hx2
      · exact hs
      · exact href
  | cons q pre2 ih =>
    intro exc ref dk k p s e post hbnd hexc href hsubE hsubR hdisj hs hrange
    intro j hjs hje i hip his
    simp only [List.cons_append] at hbnd hsubE hsubR hrange ⊢
    have hqlt : ∀ x ∈ pre2 ++ p :: s :: e :: post, q < x := by
      have hp := List.chain'_iff_pairwise.mp hbnd
      exact fun x hx => (List.pairwise_cons.mp hp).1 x hx
    have hqp : q < p := hqlt p (by simp)
    cases hpp : pre2 ++ p :: s :: e :: post with
    | nil => simp at hpp
    | cons b1 rest2 =>
      have hb1p : b1 ≤ p := by
        apply chain'_lt_head_le (b1 :: rest2) (hpp ▸ hbnd.tail) b1 rfl
        rw [← hpp]
        simp
      have hk1 : ∀ dk2, ∀ m, p ≤ m → m < k.length →
          (applySeg k dk2 q b1).getD m Vec3.zero = k.getD m Vec3.zero := by
        intro dk2 m hm hmk
        rw [getD_applySeg, if_neg (by omega)]
      have hrange2 : ∀ dk2, ∀ b ∈ pre2 ++ p :: s :: e :: post,
          b < (applySeg k dk2 q b1).length := by
        intro dk2 b hb
        rw [applySeg_length]
        exact hrange b (List.mem_cons_of_mem _ hb)
      have hsk : s < k.length := hrange s (by simp)
      have hik : i < k.length := by omega
      have hjk : j < k.length := by
        have := hrange e (by simp)
        omega
      have hbnd2 : List.Chain' (· < ·) (pre2 ++ p :: s :: e :: post) := hbnd.tail
      have hxnq : ∀ (l : List ℕ), List.Chain' (· < ·) l →
          (∀ x ∈ l, x ∈ q :: (pre2 ++ p :: s :: e :: post)) →
          ¬l.head? = some q → ∀ x ∈ l, x ∈ pre2 ++ p :: s :: e :: post := by
        intro l hl hsubl hhead x hx
        rcases List.mem_cons.mp (hsubl x hx) with rfl | hx2
        · exfalso
          apply hhead
          apply chain'_head_eq_of_min l hl x hx
          intro y hy
          rcases List.mem_cons.mp (hsubl y hy) with rfl | hy2
          · exact le_refl _
          · exact le_of_lt (hqlt y hy2)
        · exact hx2
      have htail_sub : ∀ (l : List ℕ), List.Chain' (· < ·) l →
          (∀ x ∈ l, x ∈ q :: (pre2 ++ p :: s :: e :: post)) →
          l.head? = some q → ∀ x ∈ l.tail, x ∈ pre2 ++ p :: s :: e :: post := by
        intro l hl hsubl hhead x hx
        cases hll : l with
        | nil => rw [hll] at hx; simp at hx
        | cons a t =>
          rw [hll] at hx hhead
          simp only [List.head?_cons, Option.some.injEq] at hhead
          simp only [List.tail_cons] at hx
          have hgt : q < x := by
            have hpw := List.chain'_iff_pairwise.mp hl
            rw [hll] at hpw
            have := (List.pairwise_cons.mp hpw).1 x hx
            omega
          rcases List.mem_cons.mp (hsubl x (by rw [hll]; exact List.mem_cons_of_mem _ hx)) with
            rfl | hx2
          · omega
          · exact hx2
      simp only [segLoop]
      split_ifs with h1 h2
      · have hstail : s ∈ exc.tail ∨ True := Or.inr trivial
        have hres := ih exc.tail ref (Vec3.neg (k.getD q Vec3.zero))
          (applySeg k (Vec3.neg (k.getD q Vec3.zero)) q b1) p s e post
          hbnd2 (List.Chain'.tail hexc) href
          (htail_sub exc hexc hsubE h1)
          (hxnq ref href hsubR (fun hh => hdisj q (mem_of_head?_eq _ _ h1)
            (mem_of_head?_eq _ _ hh)))
          (fun x hx => hdisj x (List.mem_of_mem_tail hx)) hs
          (hrange2 _) j hjs hje i hip his
        rw [hpp] at hres
        rw [hres, hk1 _ j (by omega) hjk, hk1 _ s (by omega) hsk, hk1 _ i hip hik]
      · have hres := ih exc ref.tail
          (Vec3.sub (Vec3.smul (-2) (k.getD q Vec3.zero)) dk)
          (applySeg k (Vec3.sub (Vec3.smul (-2) (k.getD q Vec3.zero)) dk) q b1)
          p s e post hbnd2 hexc (List.Chain'.tail href)
          (hxnq exc hexc hsubE h1)
          (htail_sub ref href hsubR h2)
          (fun x hx hxr => hdisj x hx (List.mem_of_mem_tail hxr))
          (by
            cases hrefl : ref with
            | nil => rw [hrefl] at hs; simp at hs
            | cons a t =>
              rw [hrefl] at hs h2
              simp only [List.head?_cons, Option.some.injEq] at h2
              rcases List.mem_cons.mp hs with rfl | hs2
              · exfalso
                have := hqlt s (by simp)
                omega
              · simpa using hs2)
          (hrange2 _) j hjs hje i hip his
        rw [hpp] at hres
        rw [hres, hk1 _ j (by omega) hjk, hk1 _ s (by omega) hsk, hk1 _ i hip hik]
      · have hres := ih exc ref dk (applySeg k dk q b1) p s e post
          hbnd2 hexc href
          (hxnq exc hexc hsubE h1)
          (hxnq ref href hsubR h2)
          hdisj hs (hrange2 _) j hjs hje i hip his
        rw [hpp] at hres
        rw [hres, hk1 _ j (by omega) hjk, hk1 _ s (by omega) hsk, hk1 _ i hip hik]

theorem chain'_le_getLast : ∀ (l : List ℕ), List.Chain' (· < ·) l →
    ∀ L, l.getLast? = some L → ∀ x ∈ l, x ≤ L := by
  intro l
  induction l with
  | nil => simp
  | cons a t ih =>
    intro hl L hL x hx
    cases t with
    | nil =>
      simp only [List.getLast?_singleton, Option.some.injEq] at hL
      simp only [List.mem_singleton] at hx
      omega
    | cons b t2 =>
      have hab : a < b := (List.chain'_cons.mp hl).1
      have ht := ih (List.chain'_cons.mp hl).2 L
        (by rw [← List.getLast?_cons_cons]; exact hL)
      rcases List.mem_cons.mp hx with rfl | hx2
      · have := ht b (List.mem_cons_self _ _)
        omega
      · exact ht x hx2

/-- Away from the last boundary, the fix-up of `applyOffsets` is
invisible: the output sample is the segment-loop output sample. -/
theorem getD_applyOffsets_ne_last (exc ref bnd : List ℕ) (k : List Vec3)
    (j L : ℕ) (hL : bnd.getLast? = some L) (hne : j ≠ L) :
    (applyOffsets exc ref bnd k).getD j Vec3.zero =
      ((segLoop exc ref bnd (Vec3.neg (k.getD 0 Vec3.zero)) k).2).getD j
        Vec3.zero := by
  unfold applyOffsets
  rw [hL]
  simp only [List.getD_eq_getElem?_getD, List.getElem?_set_ne (Ne.symm hne)]

/-- Concrete evaluation: scanning `inputE` finds the single explicitly
tagged excitation at internal time 1 (rounded second 1). -/
theorem rfScanOf_inputE_eval : rfScanOf inputE 1 true =
    ⟨[1], [], [1], [], false, [Char.ofNat 0, 'e'], true, 0⟩ := by
  norm_num [rfScanOf, rfScanStep, RfScanState.init, classifyRfUse,
    flipAngleLtThreshold, rfDurationS, offResonancePPM, rfCenterUs, qAbs,
    inputE, blockG, blockRFe, normSq, usToS, List.enum, List.enumFrom,
    internalToSecRounded, internalToSeconds, roundAcc, clampNonNegative,
    llroundQ, tacc,
    show ('e' : Char) ≠ Char.ofNat 0 from by decide,
    show ('e' : Char) ≠ 'u' from by decide,
    show ('e' : Char) ≠ 'U' from by decide]

/-- Concrete evaluation: the grid of `inputE` is `[0, 1, 2]`. -/
theorem gridOf_inputE_eval : gridOf inputE 1 true = [0, 1, 2] := by
  norm_num [gridOf, gridFixup, dedupAux, candidatesOf, rawCandidatesOf,
    rfScanOf_inputE_eval, seriesTimesSec, sanitizeGradientSeries,
    totalDurationSecOf, adcSecondsRoundedOf, internalToSecRounded,
    internalToSeconds, roundAcc, clampNonNegative, llroundQ, tacc, qAbs,
    rfRasterSecOf, inputE, addCandidate, List.insertionSort,
    List.orderedInsert]

/-- Concrete evaluation: the excitation grid indices of `inputE`. -/
theorem excIdxOf_inputE_eval : excIdxOf inputE 1 true = [1] := by
  norm_num [excIdxOf, rfScanOf_inputE_eval, gridOf_inputE_eval,
    sortedUniqueNat, dedupAdjNat, indexForSeconds, idxScanAux, lowerBoundIdx,
    List.findIdx_cons, List.findIdx_nil, roundAcc, llroundQ, tacc, qAbs,
    List.insertionSort, List.orderedInsert, List.filterMap_cons,
    List.filterMap_nil]

/-- Concrete evaluation: `inputE` has no refocusing grid indices. -/
theorem refIdxOf_inputE_eval : refIdxOf inputE 1 true = [] := by
  norm_num [refIdxOf, rfScanOf_inputE_eval, sortedUniqueNat, dedupAdjNat,
    List.insertionSort, List.orderedInsert]

/-- Concrete evaluation: the reset boundaries of `inputE`. -/
theorem boundariesOf_inputE_eval : boundariesOf inputE 1 true = [0, 1, 2] := by
  norm_num [boundariesOf, excIdxOf_inputE_eval, refIdxOf_inputE_eval,
    gridOf_inputE_eval, sortedUniqueNat, dedupAdjNat, List.insertionSort,
    List.orderedInsert]

/-- Concrete evaluation: the pre-offset trajectory of `inputE` integrates
the unit X gradient over `[0, 1)`. -/
theorem integrateOf_inputE_eval :
    integrateOf inputE 1 true = [⟨0, 0, 0⟩, ⟨1, 0, 0⟩, ⟨1, 0, 0⟩] := by
  unfold integrateOf
  rw [gridOf_inputE_eval]
  norm_num [integrateK, integrateAux, gradientAtSec,
    blockEdgesSecOf, upperBoundIdx, List.findIdx_cons,
    List.findIdx_nil, gradientValueFromBlock, SeqBlock.gradOf,
    trapezoidGradientValue, Vec3.add, Vec3.smul, Vec3.zero, usToS,
    internalToSecRounded, internalToSeconds, roundAcc, clampNonNegative,
    llroundQ, tacc, inputE, blockG, blockRFe, Vec3.mk.injEq]

/-- Concrete evaluation: the post-offset trajectory of `inputE` is
identically zero — the excitation at index 1 resets it, and the final
fix-up adds the reset offset to the last sample as well. -/
theorem kDenseOf_inputE_eval :
    kDenseOf inputE 1 true = [⟨0, 0, 0⟩, ⟨0, 0, 0⟩, ⟨0, 0, 0⟩] := by
  norm_num [kDenseOf, applyOffsets, segLoop, applySeg, excIdxOf_inputE_eval,
    refIdxOf_inputE_eval, boundariesOf_inputE_eval, integrateOf_inputE_eval,
    List.mapIdx_cons, List.mapIdx_nil, Vec3.add, Vec3.neg, Vec3.sub,
    Vec3.smul, Vec3.zero, Vec3.mk.injEq]

/-- Concrete evaluation: scanning `inputL` finds the single excitation at
rounded second 1 (which will be the LAST grid point). -/
theorem rfScanOf_inputL_eval : rfScanOf inputL 1 true =
    ⟨[1], [], [1], [], false, [Char.ofNat 0, 'e'], true, 0⟩ := by
  norm_num [rfScanOf, rfScanStep, RfScanState.init, classifyRfUse,
    flipAngleLtThreshold, rfDurationS, offResonancePPM, rfCenterUs, qAbs,
    inputL, blockG, blockRFe, normSq, usToS, List.enum, List.enumFrom,
    internalToSecRounded, internalToSeconds, roundAcc, clampNonNegative,
    llroundQ, tacc,
    show ('e' : Char) ≠ Char.ofNat 0 from by decide,
    show ('e' : Char) ≠ 'u' from by decide,
    show ('e' : Char) ≠ 'U' from by decide]

/-- Concrete evaluation: the grid of `inputL` is `[0, 1]`. -/
theorem gridOf_inputL_eval : gridOf inputL 1 true = [0, 1] := by
  norm_num [gridOf, gridFixup, dedupAux, candidatesOf, rawCandidatesOf,
    rfScanOf_inputL_eval, seriesTimesSec, sanitizeGradientSeries,
    totalDurationSecOf, adcSecondsRoundedOf, internalToSecRounded,
    internalToSeconds, roundAcc, clampNonNegative, llroundQ, tacc, qAbs,
    rfRasterSecOf, inputL, addCandidate, List.insertionSort,
    List.orderedInsert]

/-- Concrete evaluation: the excitation of `inputL` lands on grid index 1,
the last grid point. -/
theorem excIdxOf_inputL_eval : excIdxOf inputL 1 true = [1] := by
  norm_num [excIdxOf, rfScanOf_inputL_eval, gridOf_inputL_eval,
    sortedUniqueNat, dedupAdjNat, indexForSeconds, idxScanAux, lowerBoundIdx,
    List.findIdx_cons, List.findIdx_nil, roundAcc, llroundQ, tacc, qAbs,
    List.insertionSort, List.orderedInsert, List.filterMap_cons,
    List.filterMap_nil]

/-- Concrete evaluation: `inputL` has no refocusing grid indices. -/
theorem refIdxOf_inputL_eval : refIdxOf inputL 1 true = [] := by
  norm_num [refIdxOf, rfScanOf_inputL_eval, sortedUniqueNat, dedupAdjNat,
    List.insertionSort, List.orderedInsert]

/-- Concrete evaluation: the reset boundaries of `inputL`. -/
theorem boundariesOf_inputL_eval : boundariesOf inputL 1 true = [0, 1] := by
  norm_num [boundariesOf, excIdxOf_inputL_eval, refIdxOf_inputL_eval,
    gridOf_inputL_eval, sortedUniqueNat, dedupAdjNat, List.insertionSort,
    List.orderedInsert]

/-- Concrete evaluation: the pre-offset trajectory of `inputL`. -/
theorem integrateOf_inputL_eval :
    integrateOf inputL 1 true = [⟨0, 0, 0⟩, ⟨1, 0, 0⟩] := by
  unfold integrateOf
  rw [gridOf_inputL_eval]
  norm_num [integrateK, integrateAux, gradientAtSec,
    blockEdgesSecOf, upperBoundIdx, List.findIdx_cons,
    List.findIdx_nil, gradientValueFromBlock, SeqBlock.gradOf,
    trapezoidGradientValue, Vec3.add, Vec3.smul, Vec3.zero, usToS,
    internalToSecRounded, internalToSeconds, roundAcc, clampNonNegative,
    llroundQ, tacc, inputL, blockG, blockRFe, Vec3.mk.injEq]

/-- Concrete evaluation: the post-offset trajectory of `inputL` is NOT
reset at the excitation index 1: that index is the last grid point, the
segment loop never reaches it, and the final fix-up re-adds the offset in
force (zero) to the accumulated value `(1,0,0)`. -/
theorem kDenseOf_inputL_eval :
    kDenseOf inputL 1 true = [⟨0, 0, 0⟩, ⟨1, 0, 0⟩] := by
  norm_num [kDenseOf, applyOffsets, segLoop, applySeg, excIdxOf_inputL_eval,
    refIdxOf_inputL_eval, boundariesOf_inputL_eval, integrateOf_inputL_eval,
    List.mapIdx_cons, List.mapIdx_nil, Vec3.add, Vec3.neg, Vec3.sub,
    Vec3.smul, Vec3.zero, Vec3.mk.injEq]

/-- Concrete evaluation: scanning `inputR2` finds the single explicitly
tagged refocusing at rounded second 1. -/
theorem rfScanOf_inputR2_eval : rfScanOf inputR2 1 true =
    ⟨[], [1], [], [1], false, [Char.ofNat 0, 'r'], true, 0⟩ := by
  norm_num [rfScanOf, rfScanStep, RfScanState.init, classifyRfUse,
    flipAngleLtThreshold, rfDurationS, offResonancePPM, rfCenterUs, qAbs,
    inputR2, blockG, blockRFr, normSq, usToS, List.enum, List.enumFrom,
    internalToSecRounded, internalToSeconds, roundAcc, clampNonNegative,
    llroundQ, tacc,
    show ('r' : Char) ≠ Char.ofNat 0 from by decide,
    show ('r' : Char) ≠ 'u' from by decide,
    show ('r' : Char) ≠ 'U' from by decide,
    show ('r' : Char) ≠ 'e' from by decide,
    show ('r' : Char) ≠ 'E' from by decide]

/-- Concrete evaluation: the grid of `inputR2` is `[0, 1, 2]`. -/
theorem gridOf_inputR2_eval : gridOf inputR2 1 true = [0, 1, 2] := by
  norm_num [gridOf, gridFixup, dedupAux, candidatesOf, rawCandidatesOf,
    rfScanOf_inputR2_eval, seriesTimesSec, sanitizeGradientSeries,
    totalDurationSecOf, adcSecondsRoundedOf, internalToSecRounded,
    internalToSeconds, roundAcc, clampNonNegative, llroundQ, tacc, qAbs,
    rfRasterSecOf, inputR2, addCandidate, List.insertionSort,
    List.orderedInsert]

/-- Concrete evaluation: `inputR2` has no excitation grid indices. -/
theorem excIdxOf_inputR2_eval : excIdxOf inputR2 1 true = [] := by
  norm_num [excIdxOf, rfScanOf_inputR2_eval, sortedUniqueNat, dedupAdjNat,
    List.insertionSort, List.orderedInsert]

/-- Concrete evaluation: the refocusing of `inputR2` lands on grid
index 1, strictly inside the grid. -/
theorem refIdxOf_inputR2_eval : refIdxOf inputR2 1 true = [1] := by
  norm_num [refIdxOf, rfScanOf_inputR2_eval, gridOf_inputR2_eval,
    sortedUniqueNat, dedupAdjNat, indexForSeconds, idxScanAux, lowerBoundIdx,
    List.findIdx_cons, List.findIdx_nil, roundAcc, llroundQ, tacc, qAbs,
    List.insertionSort, List.orderedInsert, List.filterMap_cons,
    List.filterMap_nil]

/-- Concrete evaluation: the reset boundaries of `inputR2`. -/
theorem boundariesOf_inputR2_eval : boundariesOf inputR2 1 true = [0, 1, 2] := by
  norm_num [boundariesOf, excIdxOf_inputR2_eval, refIdxOf_inputR2_eval,
    gridOf_inputR2_eval, sortedUniqueNat, dedupAdjNat, List.insertionSort,
    List.orderedInsert]

/-- Concrete evaluation: the pre-offset trajectory of `inputR2`. -/
theorem integrateOf_inputR2_eval :
    integrateOf inputR2 1 true = [⟨0, 0, 0⟩, ⟨1, 0, 0⟩, ⟨1, 0, 0⟩] := by
  unfold integrateOf
  rw [gridOf_inputR2_eval]
  norm_num [integrateK, integrateAux, gradientAtSec,
    blockEdgesSecOf, upperBoundIdx, List.findIdx_cons,
    List.findIdx_nil, gradientValueFromBlock, SeqBlock.gradOf,
    trapezoidGradientValue, Vec3.add, Vec3.smul, Vec3.zero, usToS,
    internalToSecRounded, internalToSeconds, roundAcc, clampNonNegative,
    llroundQ, tacc, inputR2, blockG, blockRFr, Vec3.mk.injEq]

/-- Concrete evaluation: the post-offset trajectory of `inputR2` mirrors
about zero at the refocusing index 1: pre-pulse k there is `(1,0,0)`, the
prior offset is zero, and the post-offset values are `(-1,0,0)`. -/
theorem kDenseOf_inputR2_eval :
    kDenseOf inputR2 1 true = [⟨0, 0, 0⟩, ⟨-1, 0, 0⟩, ⟨-1, 0, 0⟩] := by
  norm_num [kDenseOf, applyOffsets, segLoop, applySeg, excIdxOf_inputR2_eval,
    refIdxOf_inputR2_eval, boundariesOf_inputR2_eval, integrateOf_inputR2_eval,
    List.mapIdx_cons, List.mapIdx_nil, Vec3.add, Vec3.neg, Vec3.sub,
    Vec3.smul, Vec3.zero, Vec3.mk.injEq,
    show (none : Option ℕ) ≠ some 0 from by decide,
    show (none : Option ℕ) ≠ some 1 from by decide,
    show (none : Option ℕ) ≠ some 2 from by decide]

/-- Concrete evaluation: scanning `inputLR` finds the single refocusing at
rounded second 1 (which will be the LAST grid point). -/
theorem rfScanOf_inputLR_eval : rfScanOf inputLR 1 true =
    ⟨[], [1], [], [1], false, [Char.ofNat 0, 'r'], true, 0⟩ := by
  norm_num [rfScanOf, rfScanStep, RfScanState.init, classifyRfUse,
    flipAngleLtThreshold, rfDurationS, offResonancePPM, rfCenterUs, qAbs,
    inputLR, blockG, blockRFr, normSq, usToS, List.enum, List.enumFrom,
    internalToSecRounded, internalToSeconds, roundAcc, clampNonNegative,
    llroundQ, tacc,
    show ('r' : Char) ≠ Char.ofNat 0 from by decide,
    show ('r' : Char) ≠ 'u' from by decide,
    show ('r' : Char) ≠ 'U' from by decide,
    show ('r' : Char) ≠ 'e' from by decide,
    show ('r' : Char) ≠ 'E' from by decide]

/-- Concrete evaluation: the grid of `inputLR` is `[0, 1]`. -/
theorem gridOf_inputLR_eval : gridOf inputLR 1 true = [0, 1] := by
  norm_num [gridOf, gridFixup, dedupAux, candidatesOf, rawCandidatesOf,
    rfScanOf_inputLR_eval, seriesTimesSec, sanitizeGradientSeries,
    totalDurationSecOf, adcSecondsRoundedOf, internalToSecRounded,
    internalToSeconds, roundAcc, clampNonNegative, llroundQ, tacc, qAbs,
    rfRasterSecOf, inputLR, addCandidate, List.insertionSort,
    List.orderedInsert]

/-- Concrete evaluation: `inputLR` has no excitation grid indices. -/
theorem excIdxOf_inputLR_eval : excIdxOf inputLR 1 true = [] := by
  norm_num [excIdxOf, rfScanOf_inputLR_eval, sortedUniqueNat, dedupAdjNat,
    List.insertionSort, List.orderedInsert]

/-- Concrete evaluation: the refocusing of `inputLR` lands on grid
index 1, the last grid point. -/
theorem refIdxOf_inputLR_eval : refIdxOf inputLR 1 true = [1] := by
  norm_num [refIdxOf, rfScanOf_inputLR_eval, gridOf_inputLR_eval,
    sortedUniqueNat, dedupAdjNat, indexForSeconds, idxScanAux, lowerBoundIdx,
    List.findIdx_cons, List.findIdx_nil, roundAcc, llroundQ, tacc, qAbs,
    List.insertionSort, List.orderedInsert, List.filterMap_cons,
    List.filterMap_nil]

/-- Concrete evaluation: the reset boundaries of `inputLR`. -/
theorem boundariesOf_inputLR_eval : boundariesOf inputLR 1 true = [0, 1] := by
  norm_num [boundariesOf, excIdxOf_inputLR_eval, refIdxOf_inputLR_eval,
    gridOf_inputLR_eval, sortedUniqueNat, dedupAdjNat, List.insertionSort,
    List.orderedInsert]

/-- Concrete evaluation: the pre-offset trajectory of `inputLR`. -/
theorem integrateOf_inputLR_eval :
    integrateOf inputLR 1 true = [⟨0, 0, 0⟩, ⟨1, 0, 0⟩] := by
  unfold integrateOf
  rw [gridOf_inputLR_eval]
  norm_num [integrateK, integrateAux, gradientAtSec,
    blockEdgesSecOf, upperBoundIdx, List.findIdx_cons,
    List.findIdx_nil, gradientValueFromBlock, SeqBlock.gradOf,
    trapezoidGradientValue, Vec3.add, Vec3.smul, Vec3.zero, usToS,
    internalToSecRounded, internalToSeconds, roundAcc, clampNonNegative,
    llroundQ, tacc, inputLR, blockG, blockRFr, Vec3.mk.injEq]

/-- Concrete evaluation: the post-offset trajectory of `inputLR` is NOT
mirrored at the refocusing index 1: that index is the last grid point,
the segment loop never applies its offset, and the final fix-up re-adds
the offset in force (zero) to the accumulated value `(1,0,0)`. -/
theorem kDenseOf_inputLR_eval :
    kDenseOf inputLR 1 true = [⟨0, 0, 0⟩, ⟨1, 0, 0⟩] := by
  norm_num [kDenseOf, applyOffsets, segLoop, applySeg, excIdxOf_inputLR_eval,
    refIdxOf_inputLR_eval, boundariesOf_inputLR_eval, integrateOf_inputLR_eval,
    List.mapIdx_cons, List.mapIdx_nil, Vec3.add, Vec3.neg, Vec3.sub,
    Vec3.smul, Vec3.zero, Vec3.mk.injEq,
    show (none : Option ℕ) ≠ some 0 from by decide,
    show (none : Option ℕ) ≠ some 1 from by decide]

/-- C1, counterexample to the unamended claim: in `inputL` the excitation
center lands on grid index 1, which is the LAST grid point; the claimed
post-offset reset `k(boundary) = (0,0,0)` fails there — the value is
`(1,0,0)`.  The segment loop (lines 626-656) only applies offsets to
segments `[boundary[i], boundary[i+1])`, so an excitation at the final
boundary starts no segment, and the fix-up at lines 658-664 re-adds the
offset previously in force instead of resetting. -/
theorem C1_counterexample :
    1 ∈ excIdxOf inputL 1 true ∧
    (kDenseOf inputL 1 true).getD 1 Vec3.zero ≠ Vec3.zero := by
  constructor
  · rw [excIdxOf_inputL_eval]
    exact List.mem_singleton.mpr rfl
  · rw [kDenseOf_inputL_eval]
    intro h
    have hx := congrArg Vec3.x h
    norm_num [Vec3.zero] at hx

/-- C1 (amended): at every excitation boundary `s` that is NOT the last
reset boundary — `s` is followed by a further boundary `e` in the sorted
boundary list — the segment loop applies the offset `-k(s)` to the whole
segment `[s, e)`: the post-offset trajectory vanishes at `s` and equals
the accumulated trajectory minus its value at `s` on the whole segment.
Stated with the well-formedness facts of the boundary machinery (sorted
boundary and excitation lists, excitation indices among the boundaries,
boundaries inside the trajectory) as hypotheses. -/
theorem C1_excitation_reset (input : Input) (g : ℚ) (w : Bool)
    (s e : ℕ) (pre post : List ℕ)
    (hdec : boundariesOf input g w = pre ++ s :: e :: post)
    (hbndCh : List.Chain' (· < ·) (boundariesOf input g w))
    (hexcCh : List.Chain' (· < ·) (excIdxOf input g w))
    (hsubE : ∀ x ∈ excIdxOf input g w, x ∈ boundariesOf input g w)
    (hs : s ∈ excIdxOf input g w)
    (hrange : ∀ b ∈ boundariesOf input g w, b < (integrateOf input g w).length) :
    (kDenseOf input g w).getD s Vec3.zero = Vec3.zero ∧
    ∀ j, s ≤ j → j < e →
      (kDenseOf input g w).getD j Vec3.zero =
        Vec3.sub ((integrateOf input g w).getD j Vec3.zero)
          ((integrateOf input g w).getD s Vec3.zero) := by
  have hdecCh : List.Chain' (· < ·) (pre ++ s :: e :: post) := by
    rw [← hdec]; exact hbndCh
  have hse : s < e := (List.chain'_cons.mp hdecCh.right_of_append).1
  obtain ⟨L, hL⟩ : ∃ L, (boundariesOf input g w).getLast? = some L := by
    cases h : (boundariesOf input g w).getLast? with
    | none =>
      rw [List.getLast?_eq_none_iff, hdec] at h
      simp at h
    | some L => exact ⟨L, rfl⟩
  have heL : e ≤ L := by
    refine chain'_le_getLast _ hbndCh L hL e ?_
    rw [hdec]
    simp
  have hmain : ∀ j, s ≤ j → j < e →
      (kDenseOf input g w).getD j Vec3.zero =
        Vec3.sub ((integrateOf input g w).getD j Vec3.zero)
          ((integrateOf input g w).getD s Vec3.zero) := by
    intro j hjs hje
    have hne : j ≠ L := by omega
    have h1 : kDenseOf input g w =
        applyOffsets (excIdxOf input g w) (refIdxOf input g w)
          (boundariesOf input g w) (integrateOf input g w) := rfl
    rw [h1, getD_applyOffsets_ne_last _ _ _ _ j L hL hne, hdec]
    refine segLoop_excitation pre _ _ _ _ s e post hdecCh hexcCh
      (fun x hx => ?_) hs (fun b hb => ?_) j hjs hje
    · rw [← hdec]; exact hsubE x hx
    · refine hrange b ?_
      rw [hdec]; exact hb
  refine ⟨?_, hmain⟩
  rw [hmain s (le_refl s) hse]
  exact Vec3.sub_self_eq _

/-- C1 witness: instantiated on `inputE`, whose excitation index 1 sits
between the boundaries 1 and 2 of `[0, 1, 2]`: the post-offset value at
index 1 is zero and the segment formula holds on `[1, 2)`. -/
theorem C1_excitation_reset_witness :
    (kDenseOf inputE 1 true).getD 1 Vec3.zero = Vec3.zero ∧
    ∀ j, 1 ≤ j → j < 2 →
      (kDenseOf inputE 1 true).getD j Vec3.zero =
        Vec3.sub ((integrateOf inputE 1 true).getD j Vec3.zero)
          ((integrateOf inputE 1 true).getD 1 Vec3.zero) :=
  C1_excitation_reset inputE 1 true 1 2 [0] []
    (by rw [boundariesOf_inputE_eval]; rfl)
    (by rw [boundariesOf_inputE_eval]; norm_num [List.chain'_cons])
    (by rw [excIdxOf_inputE_eval]; exact List.chain'_singleton 1)
    (by rw [excIdxOf_inputE_eval, boundariesOf_inputE_eval]; decide)
    (by rw [excIdxOf_inputE_eval]; decide)
    (by rw [boundariesOf_inputE_eval, integrateOf_inputE_eval]; decide)

theorem Vec3.mirror_of_zero_prev (a : Vec3) :
    Vec3.add a (Vec3.sub (Vec3.smul (-2) a) Vec3.zero) = Vec3.neg a := by
  cases a
  simp only [Vec3.add, Vec3.sub, Vec3.smul, Vec3.neg, Vec3.zero, Vec3.mk.injEq]
  refine ⟨by ring, by ring, by ring⟩

/-- C2, counterexample to the unamended claim: in `inputLR` the refocusing
center lands on grid index 1, the LAST grid point, with zero prior offset
(the post- and pre-offset values agree at index 0); the claimed spin-echo
mirror `k(boundary) = -k_pre(boundary)` fails there — the pre-pulse value
is `(1,0,0)` and the post-offset value is `(1,0,0)`, not `(-1,0,0)`.  A
refocusing at the final boundary starts no segment, so its offset is never
applied. -/
theorem C2_counterexample :
    1 ∈ refIdxOf inputLR 1 true ∧
    Vec3.sub ((kDenseOf inputLR 1 true).getD 0 Vec3.zero)
      ((integrateOf inputLR 1 true).getD 0 Vec3.zero) = Vec3.zero ∧
    (kDenseOf inputLR 1 true).getD 1 Vec3.zero ≠
      Vec3.neg ((integrateOf inputLR 1 true).getD 1 Vec3.zero) := by
  refine ⟨?_, ?_, ?_⟩
  · rw [refIdxOf_inputLR_eval]
    exact List.mem_singleton.mpr rfl
  · rw [kDenseOf_inputLR_eval, integrateOf_inputLR_eval]
    norm_num [Vec3.sub, Vec3.zero, Vec3.mk.injEq]
  · rw [kDenseOf_inputLR_eval, integrateOf_inputLR_eval]
    intro h
    have hx := congrArg Vec3.x h
    norm_num [Vec3.neg] at hx

/-- C2 (amended): at every refocusing boundary `s` that is neither the
last reset boundary (it is followed by a further boundary `e`, and
preceded by one, `p`) nor simultaneously an excitation boundary (on
overlap the excitation branch of lines 634-656 wins and the refocusing
cursor stalls), the segment loop applies the offset
`-2*k(s) - previousOffset` to the whole segment `[s, e)`, the previous
offset being observable as `post - pre` at any index of the preceding
segment `[p, s)`; in particular, when the previous offset is zero the
post-offset value at `s` is the mirrored `-k(s)`.  Stated with the
well-formedness facts of the boundary machinery as hypotheses. -/
theorem C2_refocusing_mirror (input : Input) (g : ℚ) (w : Bool)
    (p s e : ℕ) (pre post : List ℕ)
    (hdec : boundariesOf input g w = pre ++ p :: s :: e :: post)
    (hbndCh : List.Chain' (· < ·) (boundariesOf input g w))
    (hexcCh : List.Chain' (· < ·) (excIdxOf input g w))
    (hrefCh : List.Chain' (· < ·) (refIdxOf input g w))
    (hsubE : ∀ x ∈ excIdxOf input g w, x ∈ boundariesOf input g w)
    (hsubR : ∀ x ∈ refIdxOf input g w, x ∈ boundariesOf input g w)
    (hdisj : ∀ x ∈ excIdxOf input g w, x ∉ refIdxOf input g w)
    (hs : s ∈ refIdxOf input g w)
    (hrange : ∀ b ∈ boundariesOf input g w, b < (integrateOf input g w).length) :
    (∀ j, s ≤ j → j < e → ∀ i, p ≤ i → i < s →
      (kDenseOf input g w).getD j Vec3.zero =
        Vec3.add ((integrateOf input g w).getD j Vec3.zero)
          (Vec3.sub (Vec3.smul (-2) ((integrateOf input g w).getD s Vec3.zero))
            (Vec3.sub ((kDenseOf input g w).getD i Vec3.zero)
              ((integrateOf input g w).getD i Vec3.zero)))) ∧
    (∀ i, p ≤ i → i < s →
      Vec3.sub ((kDenseOf input g w).getD i Vec3.zero)
        ((integrateOf input g w).getD i Vec3.zero) = Vec3.zero →
      (kDenseOf input g w).getD s Vec3.zero =
        Vec3.neg ((integrateOf input g w).getD s Vec3.zero)) := by
  have hdecCh : List.Chain' (· < ·) (pre ++ p :: s :: e :: post) := by
    rw [← hdec]; exact hbndCh
  have hps : s < e := (List.chain'_cons.mp hdecCh.right_of_append.tail).1
  obtain ⟨L, hL⟩ : ∃ L, (boundariesOf input g w).getLast? = some L := by
    cases h : (boundariesOf input g w).getLast? with
    | none =>
      rw [List.getLast?_eq_none_iff, hdec] at h
      simp at h
    | some L => exact ⟨L, rfl⟩
  have heL : e ≤ L := by
    refine chain'_le_getLast _ hbndCh L hL e ?_
    rw [hdec]
    simp
  have h1 : kDenseOf input g w =
      applyOffsets (excIdxOf input g w) (refIdxOf input g w)
        (boundariesOf input g w) (integrateOf input g w) := rfl
  have hmain : ∀ j, s ≤ j → j < e → ∀ i, p ≤ i → i < s →
      (kDenseOf input g w).getD j Vec3.zero =
        Vec3.add ((integrateOf input g w).getD j Vec3.zero)
          (Vec3.sub (Vec3.smul (-2) ((integrateOf input g w).getD s Vec3.zero))
            (Vec3.sub ((kDenseOf input g w).getD i Vec3.zero)
              ((integrateOf input g w).getD i Vec3.zero))) := by
    intro j hjs hje i hip his
    have hnej : j ≠ L := by omega
    have hnei : i ≠ L := by omega
    rw [h1, getD_applyOffsets_ne_last _ _ _ _ j L hL hnej,
      getD_applyOffsets_ne_last _ _ _ _ i L hL hnei, hdec]
    refine segLoop_refocusing pre _ _ _ _ p s e post hdecCh hexcCh hrefCh
      (fun x hx => ?_) (fun x hx => ?_) hdisj hs (fun b hb => ?_)
      j hjs hje i hip his
    · rw [← hdec]; exact hsubE x hx
    · rw [← hdec]; exact hsubR x hx
    · refine hrange b ?_
      rw [hdec]; exact hb
  refine ⟨hmain, fun i hip his hz => ?_⟩
  have h2 := hmain s (le_refl s) hps i hip his
  rw [hz] at h2
  rw [h2, Vec3.mirror_of_zero_prev]

/-- C2 witness: instantiated on `inputR2`, whose refocusing index 1 sits
between the boundaries 0 and 2 of `[0, 1, 2]` with zero prior offset:
the post-offset value at index 1 is the mirrored `(-1,0,0)`. -/
theorem C2_refocusing_mirror_witness :
    ((kDenseOf inputR2 1 true).getD 1 Vec3.zero =
      Vec3.neg ((integrateOf inputR2 1 true).getD 1 Vec3.zero)) ∧
    (kDenseOf inputR2 1 true).getD 1 Vec3.zero = ⟨-1, 0, 0⟩ := by
  constructor
  · refine (C2_refocusing_mirror inputR2 1 true 0 1 2 [] []
      (by rw [boundariesOf_inputR2_eval]; rfl)
      (by rw [boundariesOf_inputR2_eval]; norm_num [List.chain'_cons])
      (by rw [excIdxOf_inputR2_eval]; exact List.chain'_nil)
      (by rw [refIdxOf_inputR2_eval]; exact List.chain'_singleton 1)
      (by rw [excIdxOf_inputR2_eval]; decide)
      (by rw [refIdxOf_inputR2_eval, boundariesOf_inputR2_eval]; decide)
      (by rw [excIdxOf_inputR2_eval]; decide)
      (by rw [refIdxOf_inputR2_eval]; decide)
      (by rw [boundariesOf_inputR2_eval, integrateOf_inputR2_eval]; decide)).2
      0 (le_refl 0) (by norm_num) ?_
    rw [kDenseOf_inputR2_eval, integrateOf_inputR2_eval]
    norm_num [Vec3.sub, Vec3.zero, Vec3.mk.injEq]
  · rw [kDenseOf_inputR2_eval]
    rfl

end KSpaceTraj
